import Mathlib

/-!
Verification development for the `golang-xlsx2csv` repository (`src/main.go`).

The single Go source file contains four components:
 * `getRealCSVPath` — the destination-path resolver (mask substitution);
 * `batchXlsx2csv` — directory discovery, size ranking (`sort.Slice`), and a
   channel-based worker pool;
 * `xlsx2csv` — the streaming single-file conversion pipeline;
 * thin glue (flag parsing, `main`) that is out of scope.

The development shallowly embeds these components over `List`-based data.
Strings are Lean `String`s (a structure over `List Char`); byte-level output
is modelled as `List Nat` with an explicit UTF-8 encoder.  The Go standard
library functions the source calls (`path/filepath`, `strings.Replace`,
`sort.Slice`, `encoding/csv`) are embedded following their actual Go
implementations, specialised to a Unix platform (`os.PathSeparator = '/'`),
so that every definition is executable and concrete runs can be checked by
`decide`.
-/

namespace XC

/-! ### Go `path/filepath` helpers (Unix: separator is `'/'`)

`filepath.ToSlash` and `filepath.FromSlash` replace `os.PathSeparator` by
`'/'` and back; with the Unix separator `'/'` both are the identity (the Go
implementation returns the path unchanged when `Separator == '/'`). -/

def goToSlash (s : String) : String := s

def goFromSlash (s : String) : String := s

/-- One backtracking step of `path.Clean`'s `..` handling: Go decrements
`out.w` once, then keeps decrementing while `out.w > dotdot` and the byte at
the boundary is not `'/'`.  The argument is the current value of `out.w`
after the first unconditional decrement; the result is the final `out.w`. -/
def cleanBack (buf : List Char) (dotdot : Nat) : Nat → Nat
  | 0 => 0
  | w + 1 =>
    if dotdot < w + 1 ∧ buf.getD (w + 1) ' ' ≠ '/' then cleanBack buf dotdot w
    else w + 1

/-- Segment-scanning state for the `path.Clean` loop.  Go's `Clean` consumes
one path element per outer-loop iteration; this embedding consumes one
character per step, remembering whether the current element so far is empty
(`boundary`), a single dot (`dot`), a double dot (`dotdot2`), or an ordinary
element already being copied (`inSeg`).  The two encodings process elements
identically. -/
inductive SegSt
  | boundary
  | dot
  | dotdot2
  | inSeg
deriving DecidableEq, Repr

/-- Go appends a `'/'` before a new path element unless the output is still
empty (rooted output: still just the leading `'/'`). -/
def segAppend (rooted : Bool) (out : List Char) (c : Char) : List Char :=
  if (rooted ∧ out.length ≠ 1) ∨ (¬rooted ∧ out.length ≠ 0) then out ++ ['/', c]
  else out ++ [c]

/-- Resolution of a completed `..` element in `path.Clean`: backtrack if
possible, otherwise (non-rooted) emit a literal `..`, otherwise drop it. -/
def cleanDotDot (rooted : Bool) (out : List Char) (dotdot : Nat) :
    List Char × Nat :=
  if dotdot < out.length then
    (out.take (cleanBack out dotdot (out.length - 1)), dotdot)
  else if ¬rooted then
    if out.length ≠ 0 then (out ++ ['/', '.', '.'], out.length + 3)
    else (out ++ ['.', '.'], out.length + 2)
  else (out, dotdot)

/-- Character-at-a-time embedding of the main loop of Go `path.Clean`. -/
def cleanLoop (rooted : Bool) : List Char → List Char → Nat → SegSt → List Char
  | [], out, dotdot, st =>
    match st with
    | .dotdot2 => (cleanDotDot rooted out dotdot).1
    | _ => out
  | c :: rest, out, dotdot, st =>
    if c = '/' then
      match st with
      | .dotdot2 =>
        match cleanDotDot rooted out dotdot with
        | (out2, dd2) => cleanLoop rooted rest out2 dd2 .boundary
      | _ => cleanLoop rooted rest out dotdot .boundary
    else if c = '.' then
      match st with
      | .boundary => cleanLoop rooted rest out dotdot .dot
      | .dot => cleanLoop rooted rest out dotdot .dotdot2
      | .dotdot2 =>
        cleanLoop rooted rest (segAppend rooted out '.' ++ ['.', '.']) dotdot .inSeg
      | .inSeg => cleanLoop rooted rest (out ++ [c]) dotdot .inSeg
    else
      match st with
      | .boundary => cleanLoop rooted rest (segAppend rooted out c) dotdot .inSeg
      | .dot => cleanLoop rooted rest (segAppend rooted out '.' ++ [c]) dotdot .inSeg
      | .dotdot2 =>
        cleanLoop rooted rest (segAppend rooted out '.' ++ ['.', c]) dotdot .inSeg
      | .inSeg => cleanLoop rooted rest (out ++ [c]) dotdot .inSeg

/-- Embedding of Go `path/filepath.Clean` (Unix). -/
def filepathClean (s : String) : String :=
  match s.data with
  | [] => "."
  | c :: rest =>
    let out :=
      if c = '/' then cleanLoop true rest ['/'] 1 .boundary
      else cleanLoop false (c :: rest) [] 0 .boundary
    if out = [] then "." else String.mk out

/-- Embedding of Go `path/filepath.Dir` (Unix): everything up to and
including the final separator, then `Clean`. -/
def filepathDir (s : String) : String :=
  filepathClean (String.mk ((s.data.reverse.dropWhile (fun c => c ≠ '/')).reverse))

/-- Embedding of Go `path/filepath.Base` (Unix). -/
def filepathBase (s : String) : String :=
  if s = "" then "."
  else
    let l1 := (s.data.reverse.dropWhile (fun c => c = '/')).reverse
    let l2 := (l1.reverse.takeWhile (fun c => c ≠ '/')).reverse
    if l2 = [] then "/" else String.mk l2

/-- Helper for `filepathExt`: scans the reversed path, accumulating the
characters after (in original order) the scan position, and returns the
extension once a dot is reached; stops empty at a separator. -/
def extAfterRev : List Char → List Char → List Char
  | [], _ => []
  | c :: rest, acc =>
    if c = '/' then []
    else if c = '.' then c :: acc
    else extAfterRev rest (c :: acc)

/-- Embedding of Go `path/filepath.Ext`: the suffix beginning at the final
dot in the final slash-separated element, or empty if there is none. -/
def filepathExt (s : String) : String :=
  String.mk (extAfterRev s.data.reverse [])

/-! ### Go `strings.Replace` with count 1 -/

/-- First index at which `pat` occurs as a contiguous sublist of `s`
(Go `strings.Index`). -/
def subFindIdx (pat : List Char) : List Char → Option Nat
  | [] => if pat.isPrefixOf ([] : List Char) then some 0 else none
  | c :: t =>
    if pat.isPrefixOf (c :: t) then some 0
    else (subFindIdx pat t).map (· + 1)

/-- Embedding of Go `strings.Replace (s, old, new, 1)`: replace the first
occurrence of `old` in `s` by `new`; for empty `old` Go inserts `new` at the
start; if `old == new` Go returns `s` unchanged at once. -/
def goReplaceOnce (s old new : String) : String :=
  if old = new then s
  else
    match subFindIdx old.data s.data with
    | none => s
    | some i => String.mk (s.data.take i ++ new.data ++ s.data.drop (i + old.data.length))

/-! ### The path resolver `getRealCSVPath` (src/main.go lines 80–91) -/

/-- Embedding of `getRealCSVPath` from src/main.go: normalise separators,
split the source into directory (with trailing slash) and extension-stripped
basename, then substitute the first `*/` and the first `*` of the mask. -/
def getRealCSVPath (destinationMask source : String) : String :=
  let source2 := goToSlash source
  let destinationMask2 := goToSlash destinationMask
  let dirname := filepathDir source2 ++ "/"
  let basename := filepathBase source2
  let ext := filepathExt basename
  let basename2 := String.mk (basename.data.take (basename.data.length - ext.data.length))
  let result := destinationMask2
  let result2 := goReplaceOnce result "*/" dirname
  let result3 := goReplaceOnce result2 "*" basename2
  goFromSlash result3

/-- Modelled from the spec (§4.1/§6 wording, for the refinement half of the
resolver claim): substitute the first occurrence of a token, skipping the
substitution when the token is absent. -/
def substFirst (s token repl : String) : String :=
  match subFindIdx token.data s.data with
  | none => s
  | some i => String.mk (s.data.take i ++ repl.data ++ s.data.drop (i + token.data.length))

/-- Modelled from the spec (§4.1): split the source into directory and
extension-stripped basename, substitute the first `*/` by the directory
(trailing separator implied), then the first `*` by the basename. -/
def resolveSpec (mask sourcePath : String) : String :=
  let dir := filepathDir sourcePath ++ "/"
  let base := filepathBase sourcePath
  let ext := filepathExt base
  let stem := String.mk (base.data.take (base.data.length - ext.data.length))
  substFirst (substFirst mask "*/" dir) "*" stem

/-! Sanity checks of the `path/filepath` embedding against documented Go
behaviour. -/

example : filepathClean "/a/b/c/" = "/a/b/c" := by decide
example : filepathClean "a//b" = "a/b" := by decide
example : filepathClean "a/b/.." = "a" := by decide
example : filepathClean "a/b/../.." = "." := by decide
example : filepathClean "/.." = "/" := by decide
example : filepathClean "../../a" = "../../a" := by decide
example : filepathClean "" = "." := by decide
example : filepathClean "./a/." = "a" := by decide
example : filepathClean "a/..b" = "a/..b" := by decide
example : filepathDir "/a/b/file.xlsx" = "/a/b" := by decide
example : filepathDir "file.xlsx" = "." := by decide
example : filepathBase "/a/b/file.xlsx" = "file.xlsx" := by decide
example : filepathBase "/" = "/" := by decide
example : filepathExt "file.xlsx" = ".xlsx" := by decide
example : filepathExt "archive.tar.gz" = ".gz" := by decide
example : filepathExt "noext" = "" := by decide
example : goReplaceOnce "*/out/*.csv" "*/" "/a/b/" = "/a/b/out/*.csv" := by decide

/-- Splicing the found occurrence back in reproduces the original list. -/
theorem subFindIdx_splice (od : List Char) :
    ∀ (sd : List Char) (i : Nat), subFindIdx od sd = some i →
      sd.take i ++ od ++ sd.drop (i + od.length) = sd := by
  intro sd
  induction sd with
  | nil =>
    intro i h
    rw [subFindIdx] at h
    by_cases hpre : od.isPrefixOf ([] : List Char)
    · rw [if_pos hpre] at h
      injection h with h
      subst h
      have : od = [] := List.prefix_nil.mp (List.isPrefixOf_iff_prefix.mp hpre)
      simp [this]
    · rw [if_neg hpre] at h
      cases h
  | cons c t ih =>
    intro i h
    rw [subFindIdx] at h
    by_cases hpre : od.isPrefixOf (c :: t)
    · rw [if_pos hpre] at h
      injection h with h
      subst h
      obtain ⟨r, hr⟩ := List.isPrefixOf_iff_prefix.mp hpre
      simp only [List.take_zero, List.nil_append, Nat.zero_add]
      rw [← hr, List.drop_left]
    · rw [if_neg hpre] at h
      match hfind : subFindIdx od t with
      | none => rw [hfind] at h; cases h
      | some j =>
        rw [hfind] at h
        simp only [Option.map_some'] at h
        cases h
        have hsplice := ih j hfind
        show c :: t.take j ++ od ++ (c :: t).drop (j + 1 + od.length) = c :: t
        have hdrop : (c :: t).drop (j + 1 + od.length) = t.drop (j + od.length) := by
          have harith : j + 1 + od.length = (j + od.length) + 1 := by omega
          rw [harith]
          rfl
        rw [hdrop]
        simpa using hsplice

/-- Go `strings.Replace` with count 1 coincides with the spec's
first-occurrence substitution (the `old == new` early return is invisible:
splicing `old` back in place of itself is the identity). -/
theorem goReplaceOnce_eq_substFirst (s old new : String) :
    goReplaceOnce s old new = substFirst s old new := by
  unfold goReplaceOnce substFirst
  by_cases h : old = new
  · subst h
    simp only [if_pos rfl]
    match hfind : subFindIdx old.data s.data with
    | none => rfl
    | some i =>
      have hsp := subFindIdx_splice old.data s.data i hfind
      apply String.ext
      show s.data = s.data.take i ++ old.data ++ s.data.drop (i + old.data.length)
      exact hsp.symm
  · simp only [if_neg h]

/-- C1: the path resolver is a pure, deterministic function of
(mask, source path): it substitutes the first occurrence of the
directory-wildcard token `*/` in the mask with the source's directory and
then the first occurrence of `*` with the source's extension-stripped
basename, skipping an absent token (shown by coincidence with the
spec-worded substitution `resolveSpec`); on the spec's examples,
`resolve("*/out/*.csv", "/a/b/file.xlsx") = "/a/b/out/file.csv"` and
`resolve("fixed.csv", "/a/b/file.xlsx") = "fixed.csv"`. -/
theorem getRealCSVPath_spec :
    getRealCSVPath "*/out/*.csv" "/a/b/file.xlsx" = "/a/b/out/file.csv" ∧
    getRealCSVPath "fixed.csv" "/a/b/file.xlsx" = "fixed.csv" ∧
    ∀ mask src, getRealCSVPath mask src = resolveSpec mask src := by
  refine ⟨by decide, by decide, ?_⟩
  intro mask src
  unfold getRealCSVPath resolveSpec goToSlash goFromSlash
  simp only [goReplaceOnce_eq_substFirst]

/-! ### File discovery and ranking (src/main.go lines 93–128)

`batchXlsx2csv` lists the batch directory, keeps non-directory entries whose
lower-cased extension is `.xlsx` or `.xls`, and sorts them by descending
size with `sort.Slice(files, func(i, j int) bool { return files[i].size >
files[j].size })`.  Go's `sort.Slice` is the pattern-defeating quicksort of
`sort/zsortfunc.go`; it is deterministic (its pattern-breaking randomness is
seeded with the slice length) but not stable.  The whole algorithm is
embedded below, faithful to the Go implementation, with explicit fuel so
that every function is structurally recursive and kernel-executable; the
fuel bounds are generous over-approximations of the loop bounds and are
never exhausted on the executions considered. -/

structure fileSortInfo where
  name : String
  size : Int
deriving DecidableEq, Repr, Inhabited

/-- One entry of `File.Readdir`: name, directory bit, size. -/
structure DirEntry where
  name : String
  isDir : Bool
  size : Int
deriving DecidableEq, Repr, Inhabited

/-- ASCII case of Go `strings.ToLower` (the extensions compared against are
ASCII; Go's full Unicode simple case mapping agrees with this on all strings
that can compare equal to `".xlsx"`/`".xls"`, the Kelvin sign `'K'` aside,
which cannot occur in those extensions). -/
def goToLowerChar (c : Char) : Char :=
  if 'A' ≤ c ∧ c ≤ 'Z' then Char.ofNat (c.toNat + 32) else c

def goToLower (s : String) : String := String.mk (s.data.map goToLowerChar)

/-- The extension filter of `batchXlsx2csv` (src/main.go lines 121–122). -/
def acceptExt (fileSrc : String) : Bool :=
  goToLower (filepathExt fileSrc) = ".xlsx" ∨ goToLower (filepathExt fileSrc) = ".xls"

/-- The discovery loop of `batchXlsx2csv` (src/main.go lines 115–125): skip
directories, build `dir ++ "/" ++ name` (Unix `os.PathSeparator`), keep the
entry when its extension passes the filter. -/
def collectFiles (dirName : String) : List DirEntry → List fileSortInfo
  | [] => []
  | e :: rest =>
    if e.isDir then collectFiles dirName rest
    else
      if acceptExt (dirName ++ "/" ++ e.name) then
        ⟨dirName ++ "/" ++ e.name, e.size⟩ :: collectFiles dirName rest
      else collectFiles dirName rest

/-! #### Go `sort.Slice` = `pdqsort_func` over an index/swap interface -/

/-- Out-of-range reads never occur in the Go executions; a default keeps the
embedding total. -/
def fGet {α : Type} [Inhabited α] (d : List α) (i : Nat) : α := d.getD i default

/-- The `lessSwap.Less` closure built by `sort.Slice` over the current slice
contents. -/
def lessD {α : Type} [Inhabited α] (lt : α → α → Bool) (d : List α) (i j : Nat) : Bool :=
  lt (fGet d i) (fGet d j)

/-- The `lessSwap.Swap` closure.  Go would panic on an out-of-range index
(which never happens in its executions); the guard keeps the embedding
total without disturbing any in-range behaviour. -/
def swapL {α : Type} [Inhabited α] (d : List α) (i j : Nat) : List α :=
  if i < d.length ∧ j < d.length then (d.set i (fGet d j)).set j (fGet d i) else d

/-- Go `insertionSort_func` inner loop: sift `data[j]` left while it is
strictly less than its predecessor and `j > a`. -/
def insInner {α : Type} [Inhabited α] (lt : α → α → Bool) (a : Nat) :
    Nat → List α → List α
  | 0, d => d
  | j + 1, d =>
    if a < j + 1 ∧ lessD lt d (j + 1) j then insInner lt a j (swapL d (j + 1) j)
    else d

/-- Go `insertionSort_func(data, a, b)`. -/
def insertionSortFn {α : Type} [Inhabited α] (lt : α → α → Bool)
    (d : List α) (a b : Nat) : List α :=
  (List.range' (a + 1) (b - (a + 1))).foldl (fun d i => insInner lt a i d) d

/-- Go `siftDown_func(data, lo, hi, first)` with `root` starting at `lo`;
fuel bounds the descent (the root at least doubles each step, so any fuel
`≥ hi` suffices). -/
def siftDownFn {α : Type} [Inhabited α] (lt : α → α → Bool) :
    Nat → List α → Nat → Nat → Nat → List α
  | 0, d, _, _, _ => d
  | f + 1, d, root, hi, first =>
    let child := 2 * root + 1
    if child ≥ hi then d
    else
      let child :=
        if child + 1 < hi ∧ lessD lt d (first + child) (first + child + 1) then child + 1
        else child
      if ¬ lessD lt d (first + root) (first + child) then d
      else siftDownFn lt f (swapL d (first + root) (first + child)) child hi first

/-- Go `heapSort_func(data, a, b)`: heapify from `(hi-1)/2` down to `0`,
then repeatedly swap the maximum to the end and sift down. -/
def heapSortFn {α : Type} [Inhabited α] (lt : α → α → Bool)
    (d : List α) (a b : Nat) : List α :=
  let first := a
  let hi := b - a
  let d :=
    (List.range ((hi - 1) / 2 + 1)).reverse.foldl
      (fun d i => siftDownFn lt (hi + 1) d i hi first) d
  (List.range hi).reverse.foldl
    (fun d i => siftDownFn lt (hi + 1) (swapL d first (first + i)) 0 i first) d

/-- Go `reverseRange_func(data, a, b)`. -/
def reverseRangeFn {α : Type} [Inhabited α] (d : List α) (a b : Nat) : List α :=
  (List.range ((b - a) / 2)).foldl (fun d k => swapL d (a + k) (b - 1 - k)) d

/-- Hint returned by `choosePivot_func`. -/
inductive SortHint
  | increasing
  | decreasing
  | unknown
deriving DecidableEq, Repr

/-- Go `order2_func`: order two indices by `Less`, counting swaps. -/
def order2Fn {α : Type} [Inhabited α] (lt : α → α → Bool) (d : List α)
    (a b swaps : Nat) : Nat × Nat × Nat :=
  if lessD lt d b a then (b, a, swaps + 1) else (a, b, swaps)

/-- Go `median_func`: median of three indices, counting swaps. -/
def medianFn {α : Type} [Inhabited α] (lt : α → α → Bool) (d : List α)
    (a b c swaps : Nat) : Nat × Nat :=
  let r1 := order2Fn lt d a b swaps
  let r2 := order2Fn lt d r1.2.1 c r1.2.2
  let r3 := order2Fn lt d r1.1 r2.1 r2.2.2
  (r3.2.1, r3.2.2)

/-- Go `medianAdjacent_func`: median of `a-1, a, a+1`. -/
def medianAdjacentFn {α : Type} [Inhabited α] (lt : α → α → Bool) (d : List α)
    (a swaps : Nat) : Nat × Nat :=
  medianFn lt d (a - 1) a (a + 1) swaps

/-- Go `choosePivot_func(data, a, b)`: median (of medians for length ≥ 50)
of three quartile positions; the swap count yields the sortedness hint
(`maxSwaps = 12`). -/
def choosePivotFn {α : Type} [Inhabited α] (lt : α → α → Bool) (d : List α)
    (a b : Nat) : Nat × SortHint :=
  let l := b - a
  let i := a + l / 4 * 1
  let j := a + l / 4 * 2
  let k := a + l / 4 * 3
  if 8 ≤ l then
    let r :=
      if 50 ≤ l then
        let ri := medianAdjacentFn lt d i 0
        let rj := medianAdjacentFn lt d j ri.2
        let rk := medianAdjacentFn lt d k rj.2
        medianFn lt d ri.1 rj.1 rk.1 rk.2
      else medianFn lt d i j k 0
    if r.2 = 0 then (r.1, .increasing)
    else if r.2 = 12 then (r.1, .decreasing)
    else (r.1, .unknown)
  else (j, .increasing)

/-- Scan-up loop of `partition_func`: `for i <= j && data.Less(i, a) { i++ }`. -/
def scanILoop {α : Type} [Inhabited α] (lt : α → α → Bool) (d : List α)
    (a j : Nat) : Nat → Nat → Nat
  | 0, i => i
  | f + 1, i => if i ≤ j ∧ lessD lt d i a then scanILoop lt d a j f (i + 1) else i

/-- Scan-down loop of `partition_func`: `for i <= j && !data.Less(j, a) { j-- }`. -/
def scanJLoop {α : Type} [Inhabited α] (lt : α → α → Bool) (d : List α)
    (a i : Nat) : Nat → Nat → Nat
  | 0, j => j
  | f + 1, j => if i ≤ j ∧ ¬ lessD lt d j a then scanJLoop lt d a i f (j - 1) else j

/-- Main exchange loop of `partition_func`; returns the data and the final
`j` at loop exit. -/
def partMainLoop {α : Type} [Inhabited α] (lt : α → α → Bool) :
    Nat → List α → Nat → Nat → Nat → Nat → List α × Nat
  | 0, d, _, _, _, j => (d, j)
  | f + 1, d, a, b, i, j =>
    let i2 := scanILoop lt d a j (b + 2) i
    let j2 := scanJLoop lt d a i2 (b + 2) j
    if i2 > j2 then (d, j2)
    else partMainLoop lt f (swapL d i2 j2) a b (i2 + 1) (j2 - 1)

/-- Go `partition_func(data, a, b, pivot)`: Hoare partition with the pivot
parked at `a`; returns `(data, newpivot, alreadyPartitioned)`. -/
def partitionFn {α : Type} [Inhabited α] (lt : α → α → Bool) (d : List α)
    (a b pivot : Nat) : List α × Nat × Bool :=
  let d := swapL d a pivot
  let i := scanILoop lt d a (b - 1) (b + 2) (a + 1)
  let j := scanJLoop lt d a i (b + 2) (b - 1)
  if i > j then (swapL d j a, j, true)
  else
    let d2 := swapL d i j
    let r := partMainLoop lt (b + 2) d2 a b (i + 1) (j - 1)
    (swapL r.1 r.2 a, r.2, false)

/-- Scan loops of `partitionEqual_func`. -/
def scanEqILoop {α : Type} [Inhabited α] (lt : α → α → Bool) (d : List α)
    (a j : Nat) : Nat → Nat → Nat
  | 0, i => i
  | f + 1, i => if i ≤ j ∧ ¬ lessD lt d a i then scanEqILoop lt d a j f (i + 1) else i

def scanEqJLoop {α : Type} [Inhabited α] (lt : α → α → Bool) (d : List α)
    (a i : Nat) : Nat → Nat → Nat
  | 0, j => j
  | f + 1, j => if i ≤ j ∧ lessD lt d a j then scanEqJLoop lt d a i f (j - 1) else j

/-- Exchange loop of `partitionEqual_func`; returns the data and final `i`. -/
def partEqLoop {α : Type} [Inhabited α] (lt : α → α → Bool) :
    Nat → List α → Nat → Nat → Nat → Nat → List α × Nat
  | 0, d, _, _, i, _ => (d, i)
  | f + 1, d, a, b, i, j =>
    let i2 := scanEqILoop lt d a j (b + 2) i
    let j2 := scanEqJLoop lt d a i2 (b + 2) j
    if i2 > j2 then (d, i2)
    else partEqLoop lt f (swapL d i2 j2) a b (i2 + 1) (j2 - 1)

/-- Go `partitionEqual_func(data, a, b, pivot)`: pushes elements equal to
the pivot to the left; returns `(data, newpivot)`. -/
def partitionEqualFn {α : Type} [Inhabited α] (lt : α → α → Bool) (d : List α)
    (a b pivot : Nat) : List α × Nat :=
  let d := swapL d a pivot
  partEqLoop lt (b + 2) d a b (a + 1) (b - 1)

/-- Advance loop of `partialInsertionSort_func`:
`for i < b && !data.Less(i, i-1) { i++ }`. -/
def pisAdvance {α : Type} [Inhabited α] (lt : α → α → Bool) (d : List α)
    (b : Nat) : Nat → Nat → Nat
  | 0, i => i
  | f + 1, i => if i < b ∧ ¬ lessD lt d i (i - 1) then pisAdvance lt d b f (i + 1) else i

/-- Left-shift loop of `partialInsertionSort_func`:
`for j := i-1; j >= 1; j-- { if !Less(j, j-1) break; swap }`. -/
def pisShiftLeft {α : Type} [Inhabited α] (lt : α → α → Bool) :
    Nat → List α → Nat → List α
  | 0, d, _ => d
  | f + 1, d, j =>
    if 1 ≤ j then
      if lessD lt d j (j - 1) then pisShiftLeft lt f (swapL d j (j - 1)) (j - 1) else d
    else d

/-- Right-shift loop of `partialInsertionSort_func`:
`for j := i+1; j < b; j++ { if !Less(j, j-1) break; swap }`. -/
def pisShiftRight {α : Type} [Inhabited α] (lt : α → α → Bool) :
    Nat → List α → Nat → Nat → List α
  | 0, d, _, _ => d
  | f + 1, d, j, b =>
    if j < b then
      if lessD lt d j (j - 1) then pisShiftRight lt f (swapL d j (j - 1)) (j + 1) b else d
    else d

/-- The body of Go `partialInsertionSort_func` (`maxSteps = 5` outer
iterations, `shortestShifting = 50`); returns the data and whether the range
was (made) fully sorted. -/
def partInsSortLoop {α : Type} [Inhabited α] (lt : α → α → Bool) :
    Nat → List α → Nat → Nat → Nat → List α × Bool
  | 0, d, _, _, _ => (d, false)
  | s + 1, d, a, b, i =>
    let i2 := pisAdvance lt d b (b + 2) i
    if i2 = b then (d, true)
    else if b - a < 50 then (d, false)
    else
      let d2 := swapL d i2 (i2 - 1)
      let d3 := if i2 - a ≥ 2 then pisShiftLeft lt (i2 + 1) d2 (i2 - 1) else d2
      let d4 := if b - i2 ≥ 2 then pisShiftRight lt (b + 2) d3 (i2 + 1) b else d3
      partInsSortLoop lt s d4 a b i2

/-- Go `partialInsertionSort_func(data, a, b)`. -/
def partInsSortFn {α : Type} [Inhabited α] (lt : α → α → Bool) (d : List α)
    (a b : Nat) : List α × Bool :=
  partInsSortLoop lt 5 d a b (a + 1)

/-- Go `xorshift.Next` (64-bit xorshift, state and result truncated to 64
bits). -/
def xorshiftNext (r : Nat) : Nat :=
  let r := (r ^^^ (r <<< 13)) % 2 ^ 64
  let r := r ^^^ (r >>> 7)
  (r ^^^ (r <<< 17)) % 2 ^ 64

/-- Go `bits.Len` (number of bits required to represent `n`). -/
def bitsLen (n : Nat) : Nat := if n = 0 then 0 else Nat.log2 n + 1

/-- Go `breakPatterns_func(data, a, b)`: swaps three elements around the
second quartile with pseudo-random positions; the xorshift generator is
seeded with the range length, so the procedure is deterministic. -/
def breakPatternsFn {α : Type} [Inhabited α] (d : List α) (a b : Nat) : List α :=
  let len := b - a
  if 8 ≤ len then
    let modulus := 2 ^ bitsLen len
    let idx := a + len / 4 * 2 - 1
    let pick := fun (r : Nat) =>
      let other := r &&& (modulus - 1)
      if other ≥ len then other - len else other
    let r1 := xorshiftNext len
    let r2 := xorshiftNext r1
    let r3 := xorshiftNext r2
    let d := swapL d (idx - 1) (a + pick r1)
    let d := swapL d idx (a + pick r2)
    swapL d (idx + 1) (a + pick r3)
  else d

/-- Pattern-breaking stage at the top of the `pdqsort_func` loop: if the
last partitioning was imbalanced, break patterns and decrement the limit. -/
def pdqPrep {α : Type} [Inhabited α] (d : List α) (a b limit : Nat) (wb : Bool) :
    List α × Nat :=
  if ¬ wb then (breakPatternsFn d a b, limit - 1) else (d, limit)

/-- Pivot-choice stage of `pdqsort_func`: choose a pivot; on a decreasing
hint reverse the range, mirror the pivot position, and change the hint to
increasing. -/
def pdqPivot {α : Type} [Inhabited α] (lt : α → α → Bool) (d : List α)
    (a b : Nat) : List α × Nat × SortHint :=
  let ph := choosePivotFn lt d a b
  if ph.2 = SortHint.decreasing then
    (reverseRangeFn d a b, b - 1 - (ph.1 - a), SortHint.increasing)
  else (d, ph.1, ph.2)

/-- Guarded `partialInsertionSort` stage of `pdqsort_func`: if the slice was
balanced, partitioned, and likely sorted, try a partial insertion sort;
returning `true` ends the sort. -/
def pdqPis {α : Type} [Inhabited α] (lt : α → α → Bool) (d : List α)
    (a b : Nat) (wb wp : Bool) (hint : SortHint) : List α × Bool :=
  if wb ∧ wp ∧ hint = SortHint.increasing then partInsSortFn lt d a b
  else (d, false)

/-- Go `pdqsort_func(data, a, b, limit)` (`maxInsertion = 12`).  The Go
loop-with-recursion is rendered as fuel recursion: a loop continuation
passes the current `wasBalanced`/`wasPartitioned` flags, a true recursive
call resets them to `true` as at Go function entry.  Fuel is a generous
upper bound on loop iterations plus recursion, never exhausted when started
with the fuel `sortSliceBy` supplies. -/
def pdqsortFn {α : Type} [Inhabited α] (lt : α → α → Bool) :
    Nat → List α → Nat → Nat → Nat → Bool → Bool → List α
  | 0, d, _, _, _, _, _ => d
  | f + 1, d, a, b, limit, wb, wp =>
    if b - a ≤ 12 then insertionSortFn lt d a b
    else if limit = 0 then heapSortFn lt d a b
    else
      match pdqPrep d a b limit wb with
      | (d1, limit1) =>
        match pdqPivot lt d1 a b with
        | (d2, pivot, hint) =>
          match pdqPis lt d2 a b wb wp hint with
          | (d3, sortedNow) =>
            if sortedNow then d3
            else if 0 < a ∧ ¬ lessD lt d3 (a - 1) pivot then
              match partitionEqualFn lt d3 a b pivot with
              | (d4, mid) => pdqsortFn lt f d4 mid b limit1 wb wp
            else
              match partitionFn lt d3 a b pivot with
              | (d4, mid, alreadyPartitioned) =>
                if mid - a < b - mid then
                  pdqsortFn lt f (pdqsortFn lt f d4 a mid limit1 true true)
                    (mid + 1) b limit1
                    (decide (min (mid - a) (b - mid) ≥ (b - a) / 8))
                    alreadyPartitioned
                else
                  pdqsortFn lt f (pdqsortFn lt f d4 (mid + 1) b limit1 true true)
                    a mid limit1
                    (decide (min (mid - a) (b - mid) ≥ (b - a) / 8))
                    alreadyPartitioned

/-- Go `sort.Slice(x, less)`: `pdqsort_func(lessSwap, 0, n, bits.Len(n))`. -/
def sortSliceBy {α : Type} [Inhabited α] (lt : α → α → Bool) (d : List α) : List α :=
  pdqsortFn lt ((d.length + 2) * (d.length + 2) + 64) d 0 d.length (bitsLen d.length) true true

/-- The comparison closure at src/main.go lines 126–128:
`files[i].size > files[j].size`. -/
def sizeGt (x y : fileSortInfo) : Bool := x.size > y.size

/-- Discovery then ranking, as `batchXlsx2csv` performs them (src/main.go
lines 115–128). -/
def batchDiscover (dirName : String) (entries : List DirEntry) : List fileSortInfo :=
  sortSliceBy sizeGt (collectFiles dirName entries)

/-- Modelled from the spec (§4.2/§8 wording): descending order by size with
equal-size entries kept in encounter order is exactly a stable insertion
sort by strict descending size. -/
def insDesc (x : fileSortInfo) : List fileSortInfo → List fileSortInfo
  | [] => [x]
  | y :: t => if x.size > y.size then x :: y :: t else y :: insDesc x t

/-- Modelled from the spec: stable sort by descending size (ties preserve
encounter order). -/
def stableSortDesc (l : List fileSortInfo) : List fileSortInfo :=
  l.foldl (fun acc x => insDesc x acc) []

/-! #### The ranking is a permutation: every mutation in the embedded
`sort.Slice` is a guarded swap -/

theorem perm_cons_set {α : Type} (a : α) :
    ∀ (t : List α) (j : Nat) (h : j < t.length),
      List.Perm (t[j] :: t.set j a) (a :: t) := by
  intro t
  induction t with
  | nil => intro j h; simp at h
  | cons b t' ih =>
    intro j h
    cases j with
    | zero => exact List.Perm.swap a b t'
    | succ m =>
      have hm : m < t'.length := by simpa using h
      refine List.Perm.trans (List.Perm.swap b (t'[m]) (t'.set m a)) ?_
      exact List.Perm.trans (List.Perm.cons b (ih m hm)) (List.Perm.swap a b t')

theorem set_set_perm {α : Type} [Inhabited α] :
    ∀ (d : List α) (i j : Nat), i < d.length → j < d.length →
      List.Perm ((d.set i (fGet d j)).set j (fGet d i)) d := by
  intro d
  induction d with
  | nil => intro i j hi _; simp at hi
  | cons x t ih =>
    intro i j hi hj
    cases i with
    | zero =>
      cases j with
      | zero => simp [fGet]
      | succ m =>
        have hm : m < t.length := by simpa using hj
        have hg : fGet (x :: t) (m + 1) = t[m] := by
          show t.getD m default = t[m]
          exact List.getD_eq_getElem t default hm
        rw [hg]
        show List.Perm (t[m] :: t.set m x) (x :: t)
        exact perm_cons_set x t m hm
    | succ n =>
      cases j with
      | zero =>
        have hn : n < t.length := by simpa using hi
        have hg : fGet (x :: t) (n + 1) = t[n] := by
          show t.getD n default = t[n]
          exact List.getD_eq_getElem t default hn
        rw [hg]
        show List.Perm (t[n] :: t.set n x) (x :: t)
        exact perm_cons_set x t n hn
      | succ m =>
        have hn : n < t.length := by simpa using hi
        have hm : m < t.length := by simpa using hj
        show List.Perm (x :: (t.set n (fGet t m)).set m (fGet t n)) (x :: t)
        exact List.Perm.cons x (ih n m hn hm)

theorem swapL_perm {α : Type} [Inhabited α] (d : List α) (i j : Nat) :
    List.Perm (swapL d i j) d := by
  unfold swapL
  split
  · next h => exact set_set_perm d i j h.1 h.2
  · exact List.Perm.refl d

theorem foldl_perm {α β : Type} (f : List α → β → List α)
    (h : ∀ d x, List.Perm (f d x) d) :
    ∀ (l : List β) (d : List α), List.Perm (l.foldl f d) d := by
  intro l
  induction l with
  | nil => intro d; exact List.Perm.refl d
  | cons x rest ih => intro d; exact List.Perm.trans (ih (f d x)) (h d x)

theorem insInner_perm {α : Type} [Inhabited α] (lt : α → α → Bool) (a : Nat) :
    ∀ (j : Nat) (d : List α), List.Perm (insInner lt a j d) d := by
  intro j
  induction j with
  | zero => intro d; exact List.Perm.refl d
  | succ n ih =>
    intro d
    rw [insInner]
    split
    · exact List.Perm.trans (ih _) (swapL_perm d (n + 1) n)
    · exact List.Perm.refl d

theorem insertionSortFn_perm {α : Type} [Inhabited α] (lt : α → α → Bool)
    (d : List α) (a b : Nat) : List.Perm (insertionSortFn lt d a b) d :=
  foldl_perm _ (fun d i => insInner_perm lt a i d) _ d

theorem siftDownFn_perm {α : Type} [Inhabited α] (lt : α → α → Bool) :
    ∀ (f : Nat) (d : List α) (root hi first : Nat),
      List.Perm (siftDownFn lt f d root hi first) d := by
  intro f
  induction f with
  | zero => intro d _ _ _; exact List.Perm.refl d
  | succ n ih =>
    intro d root hi first
    rw [siftDownFn]
    dsimp only
    split
    · exact List.Perm.refl d
    · split <;> split <;>
        first
          | exact List.Perm.refl d
          | exact List.Perm.trans (ih _ _ _ _) (swapL_perm _ _ _)

theorem heapSortFn_perm {α : Type} [Inhabited α] (lt : α → α → Bool)
    (d : List α) (a b : Nat) : List.Perm (heapSortFn lt d a b) d := by
  unfold heapSortFn
  dsimp only
  refine List.Perm.trans (foldl_perm _ ?_ _ _) (foldl_perm _ ?_ _ d)
  · intro d2 i
    exact List.Perm.trans (siftDownFn_perm lt _ _ 0 i _) (swapL_perm d2 _ _)
  · intro d2 i
    exact siftDownFn_perm lt _ d2 i _ _

theorem reverseRangeFn_perm {α : Type} [Inhabited α] (d : List α) (a b : Nat) :
    List.Perm (reverseRangeFn d a b) d :=
  foldl_perm _ (fun d k => swapL_perm d (a + k) (b - 1 - k)) _ d

theorem partMainLoop_perm {α : Type} [Inhabited α] (lt : α → α → Bool) :
    ∀ (f : Nat) (d : List α) (a b i j : Nat),
      List.Perm (partMainLoop lt f d a b i j).1 d := by
  intro f
  induction f with
  | zero => intro d _ _ _ _; exact List.Perm.refl d
  | succ n ih =>
    intro d a b i j
    rw [partMainLoop]
    split
    · exact List.Perm.refl d
    · exact List.Perm.trans (ih _ _ _ _ _) (swapL_perm _ _ _)

theorem partitionFn_perm {α : Type} [Inhabited α] (lt : α → α → Bool)
    (d : List α) (a b pivot : Nat) :
    List.Perm (partitionFn lt d a b pivot).1 d := by
  unfold partitionFn
  dsimp only
  split
  · exact List.Perm.trans (swapL_perm _ _ _) (swapL_perm d a pivot)
  · refine List.Perm.trans (swapL_perm _ _ _) ?_
    refine List.Perm.trans (partMainLoop_perm lt _ _ _ _ _ _) ?_
    exact List.Perm.trans (swapL_perm _ _ _) (swapL_perm d a pivot)

theorem partEqLoop_perm {α : Type} [Inhabited α] (lt : α → α → Bool) :
    ∀ (f : Nat) (d : List α) (a b i j : Nat),
      List.Perm (partEqLoop lt f d a b i j).1 d := by
  intro f
  induction f with
  | zero => intro d _ _ _ _; exact List.Perm.refl d
  | succ n ih =>
    intro d a b i j
    rw [partEqLoop]
    split
    · exact List.Perm.refl d
    · exact List.Perm.trans (ih _ _ _ _ _) (swapL_perm _ _ _)

theorem partitionEqualFn_perm {α : Type} [Inhabited α] (lt : α → α → Bool)
    (d : List α) (a b pivot : Nat) :
    List.Perm (partitionEqualFn lt d a b pivot).1 d :=
  List.Perm.trans (partEqLoop_perm lt _ _ _ _ _ _) (swapL_perm d a pivot)

theorem pisShiftLeft_perm {α : Type} [Inhabited α] (lt : α → α → Bool) :
    ∀ (f : Nat) (d : List α) (j : Nat), List.Perm (pisShiftLeft lt f d j) d := by
  intro f
  induction f with
  | zero => intro d _; exact List.Perm.refl d
  | succ n ih =>
    intro d j
    rw [pisShiftLeft]
    split
    · split
      · exact List.Perm.trans (ih _ _) (swapL_perm _ _ _)
      · exact List.Perm.refl d
    · exact List.Perm.refl d

theorem pisShiftRight_perm {α : Type} [Inhabited α] (lt : α → α → Bool) :
    ∀ (f : Nat) (d : List α) (j b : Nat), List.Perm (pisShiftRight lt f d j b) d := by
  intro f
  induction f with
  | zero => intro d _ _; exact List.Perm.refl d
  | succ n ih =>
    intro d j b
    rw [pisShiftRight]
    split
    · split
      · exact List.Perm.trans (ih _ _ _) (swapL_perm _ _ _)
      · exact List.Perm.refl d
    · exact List.Perm.refl d

theorem partInsSortLoop_perm {α : Type} [Inhabited α] (lt : α → α → Bool) :
    ∀ (s : Nat) (d : List α) (a b i : Nat),
      List.Perm (partInsSortLoop lt s d a b i).1 d := by
  intro s
  induction s with
  | zero => intro d _ _ _; exact List.Perm.refl d
  | succ n ih =>
    intro d a b i
    rw [partInsSortLoop]
    dsimp only
    split
    · exact List.Perm.refl d
    · split
      · exact List.Perm.refl d
      · refine List.Perm.trans (ih _ _ _ _) ?_
        split
        · refine List.Perm.trans (pisShiftRight_perm lt _ _ _ _) ?_
          split
          · exact List.Perm.trans (pisShiftLeft_perm lt _ _ _) (swapL_perm d _ _)
          · exact swapL_perm d _ _
        · split
          · exact List.Perm.trans (pisShiftLeft_perm lt _ _ _) (swapL_perm d _ _)
          · exact swapL_perm d _ _

theorem partInsSortFn_perm {α : Type} [Inhabited α] (lt : α → α → Bool)
    (d : List α) (a b : Nat) : List.Perm (partInsSortFn lt d a b).1 d :=
  partInsSortLoop_perm lt 5 d a b (a + 1)

theorem breakPatternsFn_perm {α : Type} [Inhabited α] (d : List α) (a b : Nat) :
    List.Perm (breakPatternsFn d a b) d := by
  unfold breakPatternsFn
  dsimp only
  split
  · exact List.Perm.trans (swapL_perm _ _ _)
      (List.Perm.trans (swapL_perm _ _ _) (swapL_perm d _ _))
  · exact List.Perm.refl d

theorem pdqPrep_perm {α : Type} [Inhabited α] (d : List α) (a b limit : Nat)
    (wb : Bool) : List.Perm (pdqPrep d a b limit wb).1 d := by
  unfold pdqPrep
  split
  · exact breakPatternsFn_perm d a b
  · exact List.Perm.refl d

theorem pdqPivot_perm {α : Type} [Inhabited α] (lt : α → α → Bool)
    (d : List α) (a b : Nat) : List.Perm (pdqPivot lt d a b).1 d := by
  unfold pdqPivot
  dsimp only
  split
  · exact reverseRangeFn_perm d a b
  · exact List.Perm.refl d

theorem pdqPis_perm {α : Type} [Inhabited α] (lt : α → α → Bool)
    (d : List α) (a b : Nat) (wb wp : Bool) (hint : SortHint) :
    List.Perm (pdqPis lt d a b wb wp hint).1 d := by
  unfold pdqPis
  split
  · exact partInsSortFn_perm lt d a b
  · exact List.Perm.refl d

theorem pdqsortFn_perm {α : Type} [Inhabited α] (lt : α → α → Bool) :
    ∀ (f : Nat) (d : List α) (a b limit : Nat) (wb wp : Bool),
      List.Perm (pdqsortFn lt f d a b limit wb wp) d := by
  intro f
  induction f with
  | zero => intro d _ _ _ _ _; exact List.Perm.refl d
  | succ n ih =>
    intro d a b limit wb wp
    rw [pdqsortFn]
    split
    · exact insertionSortFn_perm lt d a b
    split
    · exact heapSortFn_perm lt d a b
    rcases hp1 : pdqPrep d a b limit wb with ⟨d1, limit1⟩
    have h1 : List.Perm d1 d := by
      have hperm := pdqPrep_perm d a b limit wb
      rw [hp1] at hperm
      exact hperm
    dsimp only
    rcases hp2 : pdqPivot lt d1 a b with ⟨d2, pivot, hint⟩
    have h2 : List.Perm d2 d := by
      have hperm := pdqPivot_perm lt d1 a b
      rw [hp2] at hperm
      exact List.Perm.trans hperm h1
    dsimp only
    rcases hp3 : pdqPis lt d2 a b wb wp hint with ⟨d3, sortedNow⟩
    have h3 : List.Perm d3 d := by
      have hperm := pdqPis_perm lt d2 a b wb wp hint
      rw [hp3] at hperm
      exact List.Perm.trans hperm h2
    dsimp only
    split
    · exact h3
    split
    · rcases hp4 : partitionEqualFn lt d3 a b pivot with ⟨d4, mid⟩
      have h4 : List.Perm d4 d := by
        have hperm := partitionEqualFn_perm lt d3 a b pivot
        rw [hp4] at hperm
        exact List.Perm.trans hperm h3
      exact List.Perm.trans (ih _ _ _ _ _ _) h4
    · rcases hp4 : partitionFn lt d3 a b pivot with ⟨d4, mid, ap⟩
      have h4 : List.Perm d4 d := by
        have hperm := partitionFn_perm lt d3 a b pivot
        rw [hp4] at hperm
        exact List.Perm.trans hperm h3
      split
      · exact List.Perm.trans (ih _ _ _ _ _ _) (List.Perm.trans (ih _ _ _ _ _ _) h4)
      · exact List.Perm.trans (ih _ _ _ _ _ _) (List.Perm.trans (ih _ _ _ _ _ _) h4)

theorem sortSliceBy_perm {α : Type} [Inhabited α] (lt : α → α → Bool)
    (d : List α) : List.Perm (sortSliceBy lt d) d :=
  pdqsortFn_perm lt _ d 0 d.length (bitsLen d.length) true true

/-- The discovery filter, characterised: `collectFiles` keeps exactly the
non-directory entries whose lower-cased extension is accepted. -/
theorem collectFiles_eq_filter (dirName : String) :
    ∀ entries : List DirEntry,
      collectFiles dirName entries =
        (entries.filter
            (fun e => ¬ e.isDir ∧ acceptExt (dirName ++ "/" ++ e.name))).map
          (fun e => ⟨dirName ++ "/" ++ e.name, e.size⟩) := by
  intro entries
  induction entries with
  | nil => rfl
  | cons e rest ih =>
    rw [collectFiles, List.filter_cons]
    by_cases hd : e.isDir
    · simp [hd, ih]
    · by_cases hx : acceptExt (dirName ++ "/" ++ e.name)
      · simp [hd, hx, ih]
      · simp [hd, hx, ih]

/-- A 13-entry directory listing (all regular `.xlsx` files) with six
equal-size pairs; 13 entries exceed `sort.Slice`'s insertion-sort cutoff of
12, so the unstable quicksort partition runs. -/
def tieEntries : List DirEntry :=
  [⟨"0.xlsx", false, 1⟩, ⟨"1.xlsx", false, 2⟩, ⟨"2.xlsx", false, 3⟩,
   ⟨"3.xlsx", false, 4⟩, ⟨"4.xlsx", false, 5⟩, ⟨"5.xlsx", false, 6⟩,
   ⟨"6.xlsx", false, 0⟩, ⟨"7.xlsx", false, 1⟩, ⟨"8.xlsx", false, 2⟩,
   ⟨"9.xlsx", false, 3⟩, ⟨"10.xlsx", false, 4⟩, ⟨"11.xlsx", false, 5⟩,
   ⟨"12.xlsx", false, 6⟩]

/-- Executable check that a ranking is weakly descending by size. -/
def weaklyDescBySize : List fileSortInfo → Bool
  | x :: y :: t => !(decide (x.size < y.size)) && weaklyDescBySize (y :: t)
  | _ => true

/-- C4 counterexample: "ordered by strictly descending byte size with size
ties preserving encounter order" determines the output uniquely as the
stable descending sort `stableSortDesc`; on the concrete 13-file listing
`tieEntries` the code's `sort.Slice` ranking differs — e.g. the equal-size
pair `5.xlsx`/`12.xlsx` (size 6) comes out as `12.xlsx` before `5.xlsx`,
reversing encounter order, as the explicit output listed here shows. -/
theorem batchDiscover_tie_counterexample :
    batchDiscover "d" tieEntries ≠ stableSortDesc (collectFiles "d" tieEntries) ∧
    (batchDiscover "d" tieEntries).map fileSortInfo.name =
      ["d/12.xlsx", "d/5.xlsx", "d/11.xlsx", "d/4.xlsx", "d/10.xlsx", "d/3.xlsx",
       "d/9.xlsx", "d/2.xlsx", "d/8.xlsx", "d/1.xlsx", "d/7.xlsx", "d/0.xlsx",
       "d/6.xlsx"] ∧
    (stableSortDesc (collectFiles "d" tieEntries)).map fileSortInfo.name =
      ["d/5.xlsx", "d/12.xlsx", "d/4.xlsx", "d/11.xlsx", "d/3.xlsx", "d/10.xlsx",
       "d/2.xlsx", "d/9.xlsx", "d/1.xlsx", "d/8.xlsx", "d/0.xlsx", "d/7.xlsx",
       "d/6.xlsx"] := by
  refine ⟨by decide, by decide, by decide⟩

/-- C4 amended: for every directory listing, discovery retains exactly the
non-directory entries whose extension compared case-insensitively is
`.xlsx` or `.xls` (the pre-sort list is precisely that filter), and the
ranking is a permutation of exactly those entries; the ranking orders by
size through Go's unstable `sort.Slice`, which does not guarantee that
equal-size entries keep their encounter order — on the `tieEntries` listing
the output is weakly descending by size but reorders the tied pairs. -/
theorem batchDiscover_amended :
    (∀ (dirName : String) (entries : List DirEntry),
        List.Perm (batchDiscover dirName entries) (collectFiles dirName entries)) ∧
    (∀ (dirName : String) (entries : List DirEntry),
        collectFiles dirName entries =
          (entries.filter
              (fun e => ¬ e.isDir ∧ acceptExt (dirName ++ "/" ++ e.name))).map
            (fun e => ⟨dirName ++ "/" ++ e.name, e.size⟩)) ∧
    weaklyDescBySize (batchDiscover "d" tieEntries) = true := by
  refine ⟨fun dirName entries => sortSliceBy_perm sizeGt _, ?_, by decide⟩
  intro dirName entries
  exact collectFiles_eq_filter dirName entries

/-! ### The conversion pipeline `xlsx2csv` (src/main.go lines 166–241)

The pipeline opens the source through the external `tablescanner`
collaborator, configures the formatter, creates the destination, wires an
`encoding/csv` writer (buffered) over it, optionally selects a sheet, then
streams rows.  The collaborator is modelled by a script: an optional open
error, a sheet-selection answer, the finite row sequence, and the terminal
scan result (`io.EOF` or a scan error).  Destination-side I/O (`MkdirAll`,
`os.Create`, file writes) is modelled as succeeding — the destination is
in-memory; `csv.Writer.Write`'s own delimiter validation is modelled
faithfully.  The `bufio` buffer inside `csv.Writer` is modelled as flushed
only at explicit `Flush` calls (auto-flush on a full buffer could only move
bytes to the file earlier; the final content is the same). -/

/-- The full flag structure of src/main.go lines 20–36 (pointers replaced by
values; the batch worker copies the structure per job).  Only `XLSXPath`,
`CSVPath`, `SheetIndex`, `Delimiter` and `AddBOMUTF8` influence the modelled
output; the `Format*`/`AutoTrim` fields configure the external formatter,
whose rendering is out of scope, and the `Batch*` fields drive batch mode. -/
structure TRunParameters where
  XLSXPath : String
  CSVPath : String
  SheetIndex : Int
  BatchPath : String
  BatchPathFilenameMask : String
  BatchThreads : Int
  Delimiter : String
  FormatRaw : Bool
  FormatI18n : String
  FormatAllowExpFmt : Bool
  FormatDecimalSeparator : String
  FormatThousandSeparator : String
  FormatDateFixed : String
  AddBOMUTF8 : Bool
  AutoTrim : Bool
deriving Repr

/-- Go `unicode.IsSpace`: the Unicode White_Space property. -/
def goIsSpace (c : Char) : Bool :=
  c = '\t' ∨ c = '\n' ∨ c.toNat = 0x0B ∨ c.toNat = 0x0C ∨ c = '\r' ∨ c = ' ' ∨
  c.toNat = 0x85 ∨ c.toNat = 0xA0 ∨ c.toNat = 0x1680 ∨
  (0x2000 ≤ c.toNat ∧ c.toNat ≤ 0x200A) ∨ c.toNat = 0x2028 ∨ c.toNat = 0x2029 ∨
  c.toNat = 0x202F ∨ c.toNat = 0x205F ∨ c.toNat = 0x3000

/-- Go `encoding/csv` `validDelim`: the delimiter must not be NUL, quote,
CR or LF (`utf8.ValidRune` always holds for a Lean `Char`, which excludes
surrogates by construction). -/
def validDelim (c : Char) : Bool :=
  c ≠ Char.ofNat 0 ∧ c ≠ '"' ∧ c ≠ '\r' ∧ c ≠ '\n'

/-- First rune of a field is a space (Go `utf8.DecodeRuneInString` then
`unicode.IsSpace`; empty fields are handled before this point). -/
def firstIsSpace (field : String) : Bool :=
  match field.data with
  | [] => false
  | c :: _ => goIsSpace c

/-- Go `csv.Writer.fieldNeedsQuotes` with `UseCRLF = false`. -/
def fieldNeedsQuotes (comma : Char) (field : String) : Bool :=
  if field = "" then false
  else if field = "\\." then true
  else if comma = ' ' then
    if field.data.any goIsSpace then true else firstIsSpace field
  else if field.data.contains comma ∨ field.data.contains '"' ∨
      field.data.contains '\r' ∨ field.data.contains '\n' then true
  else firstIsSpace field

/-- Standard UTF-8 encoding of one rune (what Go's `WriteString`/`WriteRune`
put on the wire). -/
def utf8Bytes (c : Char) : List Nat :=
  let n := c.toNat
  if n < 0x80 then [n]
  else if n < 0x800 then [0xC0 ||| (n >>> 6), 0x80 ||| (n &&& 0x3F)]
  else if n < 0x10000 then
    [0xE0 ||| (n >>> 12), 0x80 ||| ((n >>> 6) &&& 0x3F), 0x80 ||| (n &&& 0x3F)]
  else
    [0xF0 ||| (n >>> 18), 0x80 ||| ((n >>> 12) &&& 0x3F),
     0x80 ||| ((n >>> 6) &&& 0x3F), 0x80 ||| (n &&& 0x3F)]

def utf8Str (s : String) : List Nat := (s.data.map utf8Bytes).flatten

/-- One character of a quoted CSV field (`UseCRLF = false`): a quote is
doubled, CR and LF pass through. -/
def escQuoted (c : Char) : List Nat :=
  if c = '"' then utf8Bytes '"' ++ utf8Bytes '"' else utf8Bytes c

/-- One CSV field as Go `csv.Writer.Write` emits it. -/
def encodeField (comma : Char) (f : String) : List Nat :=
  if ¬ fieldNeedsQuotes comma f then utf8Str f
  else utf8Bytes '"' ++ (f.data.map escQuoted).flatten ++ utf8Bytes '"'

/-- One CSV record: fields separated by the comma rune, terminated by `\n`
(`UseCRLF = false`). -/
def encodeRecord (comma : Char) (row : List String) : List Nat :=
  (match row with
   | [] => []
   | f :: rest =>
     encodeField comma f ++
       (rest.map (fun f => utf8Bytes comma ++ encodeField comma f)).flatten) ++ [0x0A]

/-- Observable write events of one pipeline run, in order. -/
inductive WEv
  | wroteBom
  | wroteRec (row : List String)
  | flushLoop
  | flushFinal
deriving DecidableEq, Repr

def isBomEv : WEv → Bool
  | .wroteBom => true
  | _ => false

def isRecEv : WEv → Bool
  | .wroteRec _ => true
  | _ => false

def isFlushLoopEv : WEv → Bool
  | .flushLoop => true
  | _ => false

/-- Destination-side state of a pipeline run: the bytes already in the
destination (`file`), the bytes buffered inside the `csv.Writer`'s `bufio`
(`buf`), the ordered write/flush trace, the `SetSheetId` calls issued to the
scanner, and whether `os.Create` was reached. -/
structure OutSt where
  file : List Nat
  buf : List Nat
  wtrace : List WEv
  sheetCalls : List Int
  created : Bool
deriving DecidableEq, Repr

def initOut : OutSt := ⟨[], [], [], [], false⟩

/-- The BOM is written with `outputFile.Write`, bypassing the `csv.Writer`
buffer: it goes straight to the file (src/main.go line 221). -/
def writeBom (st : OutSt) : OutSt :=
  { st with file := st.file ++ [0xEF, 0xBB, 0xBF], wtrace := st.wtrace ++ [.wroteBom] }

/-- `csvWriter.Write(data)`: the encoded record goes into the buffer. -/
def writeRec (comma : Char) (row : List String) (st : OutSt) : OutSt :=
  { st with buf := st.buf ++ encodeRecord comma row,
            wtrace := st.wtrace ++ [.wroteRec row] }

/-- `csvWriter.Flush()`: buffered bytes move to the file. -/
def flushOut (ev : WEv) (st : OutSt) : OutSt :=
  { st with file := st.file ++ st.buf, buf := [], wtrace := st.wtrace ++ [ev] }

/-- Terminal scan result of the collaborator (`GetLastScanError` after the
loop): the end-of-stream sentinel `io.EOF`, or a genuine scan error. -/
inductive ScanTerm
  | eof
  | scanErr (msg : String)
deriving DecidableEq, Repr

/-- Behaviour script of the external `tablescanner` collaborator. -/
structure ScannerScript where
  openErr : Option String
  sheetErr : Int → Option String
  rows : List (List String)
  term : ScanTerm

/-- Result of a pipeline run.  `panicked` is the Go runtime panic raised by
`[]rune(delimiter)[0]` on an empty delimiter (src/main.go line 211) — it is
not a returned error. -/
inductive PipeResult
  | ok
  | fail (msg : String)
  | panicked
deriving DecidableEq, Repr

/-- The streaming loop (src/main.go lines 218–235): while `Scan()` returns
nil, write the BOM before the first row if requested, write the row as one
record (failing like Go's `csv.Writer.Write` when the delimiter is
invalid), and force-flush after every 10000th row. -/
def streamLoop (bom : Bool) (comma : Char) :
    List (List String) → Nat → OutSt → Option String × OutSt
  | [], _, st => (none, st)
  | row :: rest, iteration, st =>
    let st1 := if bom ∧ iteration = 0 then writeBom st else st
    if validDelim comma then
      let st2 := writeRec comma row st1
      let st3 := if (iteration + 1) % 10000 = 0 then flushOut .flushLoop st2 else st2
      streamLoop bom comma rest (iteration + 1) st3
    else (some "csv: invalid field or comment delimiter", st1)

/-- Streaming phase and close: after the loop, `GetLastScanError` equal to
`io.EOF` is mapped to success, anything else is returned unchanged; the
deferred `csvWriter.Flush()` runs on every path. -/
def xlsx2csvStream (p : TRunParameters) (scr : ScannerScript) (comma : Char)
    (st : OutSt) : PipeResult × OutSt :=
  match streamLoop p.AddBOMUTF8 comma scr.rows 0 st with
  | (some e, st2) => (.fail e, flushOut .flushFinal st2)
  | (none, st2) =>
    match scr.term with
    | .eof => (.ok, flushOut .flushFinal st2)
    | .scanErr e => (.fail e, flushOut .flushFinal st2)

/-- Embedding of `xlsx2csv` (src/main.go lines 166–241).  Formatter
configuration (lines 173–193) acts only on the external formatter and has
no observable effect here.  Destination creation (lines 198–207) is
modelled as succeeding; `created` records that `os.Create` ran.  The
delimiter's first rune is extracted at line 211 — a runtime panic on an
empty delimiter, with the deferred flush/closes still running.  Sheet
selection (lines 212–217) happens only for a non-negative index and aborts
on error.  The final deferred `csvWriter.Flush()` is appended on every exit
path past line 210. -/
def xlsx2csv (p : TRunParameters) (scr : ScannerScript) : PipeResult × OutSt :=
  match scr.openErr with
  | some e =>
    (.fail ("cannot parse file [" ++ p.XLSXPath ++ "]: " ++ e ++ "\n"), initOut)
  | none =>
    let st0 : OutSt := { initOut with created := p.CSVPath ≠ "" }
    match p.Delimiter.data with
    | [] => (.panicked, flushOut .flushFinal st0)
    | comma :: _ =>
      if 0 ≤ p.SheetIndex then
        let st1 := { st0 with sheetCalls := st0.sheetCalls ++ [p.SheetIndex] }
        match scr.sheetErr p.SheetIndex with
        | some e => (.fail e, flushOut .flushFinal st1)
        | none => xlsx2csvStream p scr comma st1
      else xlsx2csvStream p scr comma st0

/-- The write/flush trace the loop generates from iteration counter `i`
onward (no BOM: that happens only at iteration 0): one record event per
row, a forced flush after every row whose 1-based global index is a
multiple of 10000. -/
def recFlushTrace : List (List String) → Nat → List WEv
  | [], _ => []
  | row :: rest, i =>
    .wroteRec row :: ((if (i + 1) % 10000 = 0 then [.flushLoop] else []) ++
      recFlushTrace rest (i + 1))

/-- The loop never touches the scanner-call log or the `created` flag. -/
theorem streamLoop_pres (bom : Bool) (c : Char) :
    ∀ (rows : List (List String)) (it : Nat) (st : OutSt),
      (streamLoop bom c rows it st).2.sheetCalls = st.sheetCalls ∧
      (streamLoop bom c rows it st).2.created = st.created := by
  intro rows
  induction rows with
  | nil => intro it st; exact ⟨rfl, rfl⟩
  | cons row rest ih =>
    intro it st
    rw [streamLoop]
    dsimp only
    set st1 := if bom = true ∧ it = 0 then writeBom st else st with hst1
    have hst1s : st1.sheetCalls = st.sheetCalls := by
      rw [hst1]
      split <;> simp [writeBom]
    have hst1c : st1.created = st.created := by
      rw [hst1]
      split <;> simp [writeBom]
    split
    · split
      · constructor
        · rw [(ih _ _).1]
          simp [flushOut, writeRec, hst1s]
        · rw [(ih _ _).2]
          simp [flushOut, writeRec, hst1c]
      · constructor
        · rw [(ih _ _).1]
          simp [writeRec, hst1s]
        · rw [(ih _ _).2]
          simp [writeRec, hst1c]
    · exact ⟨hst1s, hst1c⟩

/-- Characterisation of the loop from any iteration counter `≥ 1` (the BOM
branch is dead): no error, the trace extends by `recFlushTrace`, and the
total written bytes (file plus buffer) extend by the encoded records. -/
theorem streamLoop_ge1 (bom : Bool) (c : Char) (hv : validDelim c = true) :
    ∀ (rows : List (List String)) (it : Nat) (st : OutSt), 1 ≤ it →
      (streamLoop bom c rows it st).1 = none ∧
      (streamLoop bom c rows it st).2.wtrace = st.wtrace ++ recFlushTrace rows it ∧
      (streamLoop bom c rows it st).2.file ++ (streamLoop bom c rows it st).2.buf =
        st.file ++ st.buf ++ (rows.map (encodeRecord c)).flatten ∧
      (streamLoop bom c rows it st).2.sheetCalls = st.sheetCalls ∧
      (streamLoop bom c rows it st).2.created = st.created := by
  intro rows
  induction rows with
  | nil => intro it st hit; simp [streamLoop, recFlushTrace]
  | cons row rest ih =>
    intro it st hit
    rw [streamLoop]
    dsimp only
    have hbom : ¬ (bom = true ∧ it = 0) := by
      rintro ⟨_, h0⟩
      omega
    rw [if_neg hbom, if_pos hv]
    by_cases hf : (it + 1) % 10000 = 0
    · rw [if_pos hf]
      obtain ⟨h1, h2, h3, h4, h5⟩ := ih (it + 1) (flushOut .flushLoop (writeRec c row st))
        (by omega)
      refine ⟨h1, ?_, ?_, ?_, ?_⟩
      · rw [h2]
        simp [writeRec, flushOut, recFlushTrace, hf, List.append_assoc]
      · rw [h3]
        simp [writeRec, flushOut, List.append_assoc]
      · rw [h4]; rfl
      · rw [h5]; rfl
    · rw [if_neg hf]
      obtain ⟨h1, h2, h3, h4, h5⟩ := ih (it + 1) (writeRec c row st) (by omega)
      refine ⟨h1, ?_, ?_, ?_, ?_⟩
      · rw [h2]
        simp [writeRec, recFlushTrace, hf, List.append_assoc]
      · rw [h3]
        simp [writeRec, List.append_assoc]
      · rw [h4]; rfl
      · rw [h5]; rfl

/-- Characterisation of the whole loop started at iteration 0 with an empty
buffer: no error; if the BOM flag is set and at least one row arrives, the
BOM event/bytes come first, followed by the records with forced flushes at
every 10000th row. -/
theorem streamLoop_from0 (bom : Bool) (c : Char) (hv : validDelim c = true) :
    ∀ (rows : List (List String)) (st : OutSt), st.buf = [] →
      (streamLoop bom c rows 0 st).1 = none ∧
      (streamLoop bom c rows 0 st).2.wtrace = st.wtrace ++
        ((if bom ∧ rows ≠ [] then [WEv.wroteBom] else []) ++ recFlushTrace rows 0) ∧
      (streamLoop bom c rows 0 st).2.file ++ (streamLoop bom c rows 0 st).2.buf =
        st.file ++ ((if bom ∧ rows ≠ [] then [0xEF, 0xBB, 0xBF] else []) ++
          (rows.map (encodeRecord c)).flatten) ∧
      (streamLoop bom c rows 0 st).2.sheetCalls = st.sheetCalls ∧
      (streamLoop bom c rows 0 st).2.created = st.created := by
  intro rows st hbuf
  cases rows with
  | nil => simp [streamLoop, recFlushTrace, hbuf]
  | cons row rest =>
    rw [streamLoop]
    dsimp only
    rw [if_pos hv]
    have hmod : ¬ (0 + 1) % 10000 = 0 := by decide
    rw [if_neg hmod]
    by_cases hb : bom = true
    · rw [if_pos ⟨hb, rfl⟩]
      obtain ⟨h1, h2, h3, h4, h5⟩ :=
        streamLoop_ge1 bom c hv rest 1 (writeRec c row (writeBom st)) (by omega)
      have hne : (bom ∧ row :: rest ≠ []) := ⟨hb, by simp⟩
      refine ⟨h1, ?_, ?_, ?_, ?_⟩
      · rw [h2]
        simp [writeRec, writeBom, recFlushTrace, hmod, hne, List.append_assoc]
      · rw [h3]
        simp [writeRec, writeBom, hbuf, hne, List.append_assoc]
      · rw [h4]; rfl
      · rw [h5]; rfl
    · have hbf : bom = false := by
        cases bom
        · rfl
        · exact absurd rfl hb
      have hb2 : ¬ (bom = true ∧ (0 : Nat) = 0) := by
        rintro ⟨hc, _⟩
        exact hb hc
      rw [if_neg hb2]
      obtain ⟨h1, h2, h3, h4, h5⟩ :=
        streamLoop_ge1 bom c hv rest 1 (writeRec c row st) (by omega)
      refine ⟨h1, ?_, ?_, ?_, ?_⟩
      · rw [h2]
        simp [writeRec, recFlushTrace, hmod, hbf, List.append_assoc]
      · rw [h3]
        simp [writeRec, hbuf, hbf, List.append_assoc]
      · rw [h4]; rfl
      · rw [h5]; rfl

/-- Characterisation of the streaming-and-close phase on an empty buffer:
the result is `ok` exactly for the end-of-stream sentinel, any other scan
error passes through unchanged, and the deferred final flush empties the
buffer into the file. -/
theorem xlsx2csvStream_run (p : TRunParameters) (scr : ScannerScript) (c : Char)
    (st : OutSt) (hv : validDelim c = true) (hbuf : st.buf = []) :
    (xlsx2csvStream p scr c st).1 = (match scr.term with
      | ScanTerm.eof => PipeResult.ok
      | ScanTerm.scanErr e => PipeResult.fail e) ∧
    (xlsx2csvStream p scr c st).2.file = st.file ++
      ((if p.AddBOMUTF8 ∧ scr.rows ≠ [] then [0xEF, 0xBB, 0xBF] else []) ++
        (scr.rows.map (encodeRecord c)).flatten) ∧
    (xlsx2csvStream p scr c st).2.buf = [] ∧
    (xlsx2csvStream p scr c st).2.wtrace = st.wtrace ++
      ((if p.AddBOMUTF8 ∧ scr.rows ≠ [] then [WEv.wroteBom] else []) ++
        recFlushTrace scr.rows 0) ++ [WEv.flushFinal] ∧
    (xlsx2csvStream p scr c st).2.sheetCalls = st.sheetCalls ∧
    (xlsx2csvStream p scr c st).2.created = st.created := by
  unfold xlsx2csvStream
  obtain ⟨h1, h2, h3, h4, h5⟩ := streamLoop_from0 p.AddBOMUTF8 c hv scr.rows st hbuf
  rcases hrun : streamLoop p.AddBOMUTF8 c scr.rows 0 st with ⟨err, st2⟩
  rw [hrun] at h1 h2 h3 h4 h5
  dsimp only at h1 h2 h3 h4 h5
  subst h1
  dsimp only
  have hfile : (flushOut WEv.flushFinal st2).file = st.file ++
      ((if p.AddBOMUTF8 ∧ scr.rows ≠ [] then [0xEF, 0xBB, 0xBF] else []) ++
        (scr.rows.map (encodeRecord c)).flatten) := by
    simp only [flushOut]
    rw [h3]
  have hbuf2 : (flushOut WEv.flushFinal st2).buf = [] := rfl
  have htr : (flushOut WEv.flushFinal st2).wtrace = st.wtrace ++
      ((if p.AddBOMUTF8 ∧ scr.rows ≠ [] then [WEv.wroteBom] else []) ++
        recFlushTrace scr.rows 0) ++ [WEv.flushFinal] := by
    simp only [flushOut]
    rw [h2]
  have hsc : (flushOut WEv.flushFinal st2).sheetCalls = st.sheetCalls := by
    simp only [flushOut]
    rw [h4]
  have hcr : (flushOut WEv.flushFinal st2).created = st.created := by
    simp only [flushOut]
    rw [h5]
  cases scr.term with
  | eof => exact ⟨rfl, hfile, hbuf2, htr, hsc, hcr⟩
  | scanErr e => exact ⟨rfl, hfile, hbuf2, htr, hsc, hcr⟩

/-- Master characterisation of a pipeline run that opens successfully, has
a non-empty delimiter whose first rune is CSV-valid, and whose sheet
selection (if requested) succeeds. -/
theorem xlsx2csv_run (p : TRunParameters) (scr : ScannerScript)
    (hopen : scr.openErr = none) (c : Char) (cr : List Char)
    (hdelim : p.Delimiter.data = c :: cr) (hv : validDelim c = true)
    (hsheet : 0 ≤ p.SheetIndex → scr.sheetErr p.SheetIndex = none) :
    (xlsx2csv p scr).1 = (match scr.term with
      | ScanTerm.eof => PipeResult.ok
      | ScanTerm.scanErr e => PipeResult.fail e) ∧
    (xlsx2csv p scr).2.file =
      (if p.AddBOMUTF8 ∧ scr.rows ≠ [] then [0xEF, 0xBB, 0xBF] else []) ++
        (scr.rows.map (encodeRecord c)).flatten ∧
    (xlsx2csv p scr).2.buf = [] ∧
    (xlsx2csv p scr).2.wtrace =
      ((if p.AddBOMUTF8 ∧ scr.rows ≠ [] then [WEv.wroteBom] else []) ++
        recFlushTrace scr.rows 0) ++ [WEv.flushFinal] ∧
    (xlsx2csv p scr).2.sheetCalls =
      (if 0 ≤ p.SheetIndex then [p.SheetIndex] else []) ∧
    (xlsx2csv p scr).2.created = decide (p.CSVPath ≠ "") := by
  unfold xlsx2csv
  rw [hopen]
  dsimp only
  rw [hdelim]
  dsimp only
  by_cases hidx : 0 ≤ p.SheetIndex
  · rw [if_pos hidx, hsheet hidx]
    dsimp only
    obtain ⟨g1, g2, g3, g4, g5, g6⟩ := xlsx2csvStream_run p scr c
      { initOut with created := decide (p.CSVPath ≠ ""),
                     sheetCalls := [p.SheetIndex] } hv rfl
    rw [if_pos hidx]
    exact ⟨g1, by simpa using g2, g3, by simpa using g4, by simpa using g5, g6⟩
  · rw [if_neg hidx]
    obtain ⟨g1, g2, g3, g4, g5, g6⟩ := xlsx2csvStream_run p scr c
      { initOut with created := decide (p.CSVPath ≠ "") } hv rfl
    rw [if_neg hidx]
    exact ⟨g1, by simpa using g2, g3, by simpa using g4, by simpa using g5, g6⟩

/-- No BOM event ever appears in the loop trace past iteration 0. -/
theorem recFlushTrace_count_bom :
    ∀ (rows : List (List String)) (i : Nat),
      (recFlushTrace rows i).countP isBomEv = 0 := by
  intro rows
  induction rows with
  | nil => intro i; rfl
  | cons row rest ih =>
    intro i
    rw [recFlushTrace]
    simp only [List.countP_cons, List.countP_append]
    rw [ih]
    split <;> simp [isBomEv]

/-- Exactly one record event per row in the loop trace. -/
theorem recFlushTrace_count_rec :
    ∀ (rows : List (List String)) (i : Nat),
      (recFlushTrace rows i).countP isRecEv = rows.length := by
  intro rows
  induction rows with
  | nil => intro i; rfl
  | cons row rest ih =>
    intro i
    rw [recFlushTrace]
    simp only [List.countP_cons, List.countP_append]
    rw [ih]
    split <;> simp [isRecEv]

/-- The number of forced flushes over rows with 1-based global indices
`i+1 … i+n` is the number of multiples of 10000 in that interval. -/
theorem recFlushTrace_count_flush :
    ∀ (rows : List (List String)) (i : Nat),
      (recFlushTrace rows i).countP isFlushLoopEv =
        (i + rows.length) / 10000 - i / 10000 := by
  intro rows
  induction rows with
  | nil => intro i; simp [recFlushTrace]
  | cons row rest ih =>
    intro i
    rw [recFlushTrace]
    simp only [List.countP_cons, List.countP_append]
    rw [ih]
    have hd : (i + 1) / 10000 = i / 10000 + if 10000 ∣ i + 1 then 1 else 0 :=
      Nat.succ_div i 10000
    have hmono : (i + 1) / 10000 ≤ (i + 1 + rest.length) / 10000 :=
      Nat.div_le_div_right (by omega)
    have hmono2 : i / 10000 ≤ (i + 1) / 10000 :=
      Nat.div_le_div_right (by omega)
    have harr : i + (row :: rest).length = i + 1 + rest.length := by
      simp
      omega
    rw [harr]
    by_cases hmod : (i + 1) % 10000 = 0
    · rw [if_pos hmod]
      have hdvd : 10000 ∣ i + 1 := Nat.dvd_of_mod_eq_zero hmod
      rw [if_pos hdvd] at hd
      simp only [List.countP_cons, List.countP_nil, isFlushLoopEv]
      simp [isFlushLoopEv]
      omega
    · rw [if_neg hmod]
      have hdvd : ¬ 10000 ∣ i + 1 := fun h => hmod (Nat.mod_eq_zero_of_dvd h)
      rw [if_neg hdvd] at hd
      simp [isFlushLoopEv]
      omega

/-- The streaming phase never issues sheet-selection calls. -/
theorem xlsx2csvStream_sheetCalls (p : TRunParameters) (scr : ScannerScript)
    (c : Char) (st : OutSt) :
    (xlsx2csvStream p scr c st).2.sheetCalls = st.sheetCalls := by
  unfold xlsx2csvStream
  rcases hrun : streamLoop p.AddBOMUTF8 c scr.rows 0 st with ⟨err, st2⟩
  have hpres := (streamLoop_pres p.AddBOMUTF8 c scr.rows 0 st).1
  rw [hrun] at hpres
  dsimp only at hpres
  cases err with
  | some e => simpa [flushOut] using hpres
  | none =>
    dsimp only
    cases scr.term <;> simpa [flushOut] using hpres

/-- The streaming phase never results in a panic: its outcome is `ok` or a
returned error. -/
theorem xlsx2csvStream_not_panicked (p : TRunParameters) (scr : ScannerScript)
    (c : Char) (st : OutSt) :
    (xlsx2csvStream p scr c st).1 ≠ PipeResult.panicked := by
  unfold xlsx2csvStream
  rcases hrun : streamLoop p.AddBOMUTF8 c scr.rows 0 st with ⟨err, st2⟩
  cases err with
  | some e => simp
  | none =>
    dsimp only
    cases scr.term <;> simp

/-- The default flag values of src/main.go lines 40–56, single-file mode. -/
def pBase : TRunParameters :=
  { XLSXPath := "in.xlsx", CSVPath := "out.csv", SheetIndex := -1,
    BatchPath := "", BatchPathFilenameMask := "*/*.csv", BatchThreads := 1,
    Delimiter := ";", FormatRaw := false, FormatI18n := "en",
    FormatAllowExpFmt := false, FormatDecimalSeparator := "",
    FormatThousandSeparator := "depends on i18n", FormatDateFixed := "",
    AddBOMUTF8 := false, AutoTrim := false }

/-- A well-behaved scanner script: opens fine, any sheet selectable, no
rows, clean end of stream. -/
def scrBase : ScannerScript :=
  { openErr := none, sheetErr := fun _ => none, rows := [], term := .eof }

/-- A script yielding one two-cell row then the end-of-stream sentinel. -/
def scrOneRow : ScannerScript := { scrBase with rows := [["a", "b"]] }

/-- C2 counterexample: with the BOM flag set and a zero-row source the
conversion succeeds, yet the output stream is empty — its first three bytes
are not `EF BB BF` and no BOM write ever happened.  The BOM write sits
inside the row loop guarded by `iteration == 0` (src/main.go lines
220–225), so a source yielding no rows never reaches it. -/
theorem xlsx2csv_bom_zero_rows_counterexample :
    (xlsx2csv { pBase with AddBOMUTF8 := true } scrBase).1 = PipeResult.ok ∧
    (xlsx2csv { pBase with AddBOMUTF8 := true } scrBase).2.file = [] ∧
    (xlsx2csv { pBase with AddBOMUTF8 := true } scrBase).2.wtrace.countP isBomEv
      = 0 := by
  refine ⟨rfl, rfl, rfl⟩

/-- C2 amended: when the BOM flag is set, for every run that opens, has a
valid delimiter and a successful sheet selection, and whose source yields
at least one row, the output's first three bytes are `EF BB BF`, written
exactly once and before any row bytes; a zero-row source instead produces
an empty output with no BOM at all. -/
theorem xlsx2csv_bom_amended (p : TRunParameters) (scr : ScannerScript)
    (c : Char) (cr : List Char)
    (hopen : scr.openErr = none) (hdelim : p.Delimiter.data = c :: cr)
    (hv : validDelim c = true)
    (hsheet : 0 ≤ p.SheetIndex → scr.sheetErr p.SheetIndex = none)
    (hbom : p.AddBOMUTF8 = true) :
    (scr.rows ≠ [] →
      (xlsx2csv p scr).2.file.take 3 = [0xEF, 0xBB, 0xBF] ∧
      (xlsx2csv p scr).2.wtrace.countP isBomEv = 1 ∧
      (xlsx2csv p scr).2.wtrace =
        WEv.wroteBom :: (recFlushTrace scr.rows 0 ++ [WEv.flushFinal]) ∧
      (recFlushTrace scr.rows 0 ++ [WEv.flushFinal]).countP isBomEv = 0) ∧
    (scr.rows = [] →
      (xlsx2csv p scr).2.file = [] ∧
      (xlsx2csv p scr).2.wtrace.countP isBomEv = 0) := by
  obtain ⟨g1, g2, g3, g4, g5, g6⟩ := xlsx2csv_run p scr hopen c cr hdelim hv hsheet
  constructor
  · intro hne
    have hcond : p.AddBOMUTF8 = true ∧ scr.rows ≠ [] := ⟨hbom, hne⟩
    rw [if_pos hcond] at g2 g4
    refine ⟨?_, ?_, ?_, ?_⟩
    · rw [g2]; rfl
    · rw [g4]
      simp [List.countP_append, List.countP_cons, recFlushTrace_count_bom, isBomEv]
    · rw [g4]
      simp
    · simp [List.countP_append, List.countP_cons, recFlushTrace_count_bom, isBomEv]
  · intro hempty
    have hcond : ¬ (p.AddBOMUTF8 = true ∧ scr.rows ≠ []) := by
      rintro ⟨_, hne⟩
      exact hne hempty
    rw [if_neg hcond] at g2 g4
    refine ⟨?_, ?_⟩
    · rw [g2, hempty]; rfl
    · rw [g4, hempty]
      simp [recFlushTrace, List.countP_append, isBomEv]

/-- Witness: the amended BOM behaviour on a concrete one-row run with the
default delimiter `;` and sheet index `-1`. -/
theorem xlsx2csv_bom_amended_witness :
    ((scrOneRow.rows ≠ [] →
      (xlsx2csv { pBase with AddBOMUTF8 := true } scrOneRow).2.file.take 3 =
        [0xEF, 0xBB, 0xBF] ∧
      (xlsx2csv { pBase with AddBOMUTF8 := true } scrOneRow).2.wtrace.countP isBomEv
        = 1 ∧
      (xlsx2csv { pBase with AddBOMUTF8 := true } scrOneRow).2.wtrace =
        WEv.wroteBom :: (recFlushTrace scrOneRow.rows 0 ++ [WEv.flushFinal]) ∧
      (recFlushTrace scrOneRow.rows 0 ++ [WEv.flushFinal]).countP isBomEv = 0) ∧
    (scrOneRow.rows = [] →
      (xlsx2csv { pBase with AddBOMUTF8 := true } scrOneRow).2.file = [] ∧
      (xlsx2csv { pBase with AddBOMUTF8 := true } scrOneRow).2.wtrace.countP isBomEv
        = 0)) :=
  xlsx2csv_bom_amended { pBase with AddBOMUTF8 := true } scrOneRow ';' []
    rfl rfl (by decide) (fun h => absurd h (by decide)) rfl

/-- C3: a conversion that completes successfully (the source terminates
with the end-of-stream sentinel) emits exactly one delimited record per
scanned row: the record count in the write trace equals the number of rows
the scanner yielded before end of stream. -/
theorem xlsx2csv_record_count (p : TRunParameters) (scr : ScannerScript)
    (c : Char) (cr : List Char)
    (hopen : scr.openErr = none) (hdelim : p.Delimiter.data = c :: cr)
    (hv : validDelim c = true)
    (hsheet : 0 ≤ p.SheetIndex → scr.sheetErr p.SheetIndex = none)
    (hterm : scr.term = ScanTerm.eof) :
    (xlsx2csv p scr).1 = PipeResult.ok ∧
    (xlsx2csv p scr).2.wtrace.countP isRecEv = scr.rows.length := by
  obtain ⟨g1, _, _, g4, _, _⟩ := xlsx2csv_run p scr hopen c cr hdelim hv hsheet
  constructor
  · rw [g1, hterm]
  · rw [g4]
    simp only [List.countP_append, List.countP_cons, recFlushTrace_count_rec]
    split <;> simp [isRecEv]

/-- Witness: the record count on a concrete one-row run. -/
theorem xlsx2csv_record_count_witness :
    (xlsx2csv pBase scrOneRow).1 = PipeResult.ok ∧
    (xlsx2csv pBase scrOneRow).2.wtrace.countP isRecEv = scrOneRow.rows.length :=
  xlsx2csv_record_count pBase scrOneRow ';' [] rfl rfl (by decide)
    (fun h => absurd h (by decide)) rfl

/-- C5: a negative sheet index issues no sheet-selection call on any path;
a non-negative index whose selection fails makes the whole pipeline fail
with that very error, with the destination left containing no bytes (the
file was created/truncated before the selection, but nothing was written or
flushed to it beyond the empty buffer). -/
theorem xlsx2csv_sheet_selection :
    (∀ (p : TRunParameters) (scr : ScannerScript), p.SheetIndex < 0 →
      (xlsx2csv p scr).2.sheetCalls = []) ∧
    (∀ (p : TRunParameters) (scr : ScannerScript) (e : String),
      scr.openErr = none → 0 ≤ p.SheetIndex →
      scr.sheetErr p.SheetIndex = some e → p.Delimiter ≠ "" →
      (xlsx2csv p scr).1 = PipeResult.fail e ∧
      (xlsx2csv p scr).2.file = [] ∧
      (xlsx2csv p scr).2.buf = [] ∧
      (xlsx2csv p scr).2.sheetCalls = [p.SheetIndex] ∧
      (xlsx2csv p scr).2.created = decide (p.CSVPath ≠ "")) := by
  constructor
  · intro p scr hneg
    unfold xlsx2csv
    cases hop : scr.openErr with
    | some e => rfl
    | none =>
      dsimp only
      cases hd : p.Delimiter.data with
      | nil => rfl
      | cons c cr =>
        dsimp only
        rw [if_neg (by omega : ¬ 0 ≤ p.SheetIndex)]
        rw [xlsx2csvStream_sheetCalls]
        rfl
  · intro p scr e hopen hle hserr hne
    unfold xlsx2csv
    rw [hopen]
    dsimp only
    cases hd : p.Delimiter.data with
    | nil => exact absurd (show p.Delimiter = "" from congrArg String.mk hd) hne
    | cons c cr =>
      dsimp only
      rw [if_pos hle, hserr]
      exact ⟨rfl, rfl, rfl, rfl, rfl⟩

/-- Witness: sheet-selection behaviour at the default index `-1` (no call)
and at index `5` with a failing selection. -/
theorem xlsx2csv_sheet_selection_witness :
    (xlsx2csv pBase scrBase).2.sheetCalls = [] ∧
    ((xlsx2csv { pBase with SheetIndex := 5 }
        { scrBase with sheetErr := fun _ => some "invalid sheet index" }).1 =
      PipeResult.fail "invalid sheet index" ∧
     (xlsx2csv { pBase with SheetIndex := 5 }
        { scrBase with sheetErr := fun _ => some "invalid sheet index" }).2.file
       = []) := by
  constructor
  · exact xlsx2csv_sheet_selection.1 pBase scrBase (by decide)
  · have h := xlsx2csv_sheet_selection.2 { pBase with SheetIndex := 5 }
      { scrBase with sheetErr := fun _ => some "invalid sheet index" }
      "invalid sheet index" rfl (by decide) rfl (by decide)
    exact ⟨h.1, h.2.1⟩

/-- C6: for every run reaching the streaming phase, the pipeline returns
success exactly when row scanning terminated with the end-of-stream
sentinel (`io.EOF`, mapped to nil at src/main.go lines 236–239); every
other scan error is propagated unchanged as the pipeline's result. -/
theorem xlsx2csv_eof_success (p : TRunParameters) (scr : ScannerScript)
    (c : Char) (cr : List Char)
    (hopen : scr.openErr = none) (hdelim : p.Delimiter.data = c :: cr)
    (hv : validDelim c = true)
    (hsheet : 0 ≤ p.SheetIndex → scr.sheetErr p.SheetIndex = none) :
    ((xlsx2csv p scr).1 = PipeResult.ok ↔ scr.term = ScanTerm.eof) ∧
    (∀ e, scr.term = ScanTerm.scanErr e →
      (xlsx2csv p scr).1 = PipeResult.fail e) := by
  obtain ⟨g1, _⟩ := xlsx2csv_run p scr hopen c cr hdelim hv hsheet
  constructor
  · rw [g1]
    cases scr.term <;> simp
  · intro e he
    rw [g1, he]

/-- Witness: success for an end-of-stream run and unchanged propagation of
a mid-stream scan error. -/
theorem xlsx2csv_eof_success_witness :
    (((xlsx2csv pBase scrOneRow).1 = PipeResult.ok ↔
        scrOneRow.term = ScanTerm.eof) ∧
      (∀ e, scrOneRow.term = ScanTerm.scanErr e →
        (xlsx2csv pBase scrOneRow).1 = PipeResult.fail e)) ∧
    (xlsx2csv pBase { scrOneRow with term := ScanTerm.scanErr "zip: corrupt" }).1
      = PipeResult.fail "zip: corrupt" := by
  constructor
  · exact xlsx2csv_eof_success pBase scrOneRow ';' [] rfl rfl (by decide)
      (fun h => absurd h (by decide))
  · exact (xlsx2csv_eof_success pBase
      { scrOneRow with term := ScanTerm.scanErr "zip: corrupt" } ';' [] rfl rfl
      (by decide) (fun h => absurd h (by decide))).2 "zip: corrupt" rfl

/-- C9: the loop force-flushes exactly after every 10000th written row —
the write trace is precisely one record event per row with a forced flush
after each row whose 1-based index is a multiple of 10000 (that is what the
generator `recFlushTrace` emits), so the in-loop flush count is
`rows / 10000`; the deferred final flush empties the buffer, and the
destination ends up holding every written byte, whatever the row count
modulo 10000. -/
theorem xlsx2csv_flush_spec (p : TRunParameters) (scr : ScannerScript)
    (c : Char) (cr : List Char)
    (hopen : scr.openErr = none) (hdelim : p.Delimiter.data = c :: cr)
    (hv : validDelim c = true)
    (hsheet : 0 ≤ p.SheetIndex → scr.sheetErr p.SheetIndex = none) :
    (xlsx2csv p scr).2.buf = [] ∧
    (xlsx2csv p scr).2.file =
      (if p.AddBOMUTF8 ∧ scr.rows ≠ [] then [0xEF, 0xBB, 0xBF] else []) ++
        (scr.rows.map (encodeRecord c)).flatten ∧
    (xlsx2csv p scr).2.wtrace =
      ((if p.AddBOMUTF8 ∧ scr.rows ≠ [] then [WEv.wroteBom] else []) ++
        recFlushTrace scr.rows 0) ++ [WEv.flushFinal] ∧
    (xlsx2csv p scr).2.wtrace.countP isFlushLoopEv = scr.rows.length / 10000 := by
  obtain ⟨_, g2, g3, g4, _, _⟩ := xlsx2csv_run p scr hopen c cr hdelim hv hsheet
  refine ⟨g3, g2, g4, ?_⟩
  rw [g4]
  simp only [List.countP_append, List.countP_cons, recFlushTrace_count_flush]
  have hz : (0 + scr.rows.length) / 10000 - 0 / 10000 = scr.rows.length / 10000 := by
    simp
  rw [hz]
  split <;> simp [isFlushLoopEv]

/-- Witness: the flush discipline on a concrete one-row run (row count not
a multiple of 10000: no in-loop flush, everything still lands in the
file). -/
theorem xlsx2csv_flush_spec_witness :
    (xlsx2csv pBase scrOneRow).2.buf = [] ∧
    (xlsx2csv pBase scrOneRow).2.file =
      (if pBase.AddBOMUTF8 ∧ scrOneRow.rows ≠ [] then [0xEF, 0xBB, 0xBF] else []) ++
        (scrOneRow.rows.map (encodeRecord ';')).flatten ∧
    (xlsx2csv pBase scrOneRow).2.wtrace =
      ((if pBase.AddBOMUTF8 ∧ scrOneRow.rows ≠ [] then [WEv.wroteBom] else []) ++
        recFlushTrace scrOneRow.rows 0) ++ [WEv.flushFinal] ∧
    (xlsx2csv pBase scrOneRow).2.wtrace.countP isFlushLoopEv =
      scrOneRow.rows.length / 10000 :=
  xlsx2csv_flush_spec pBase scrOneRow ';' [] rfl rfl (by decide)
    (fun h => absurd h (by decide))

/-- C10: the pipeline uses only the first rune of the configured delimiter
string (`[]rune(*runParameters.Delimiter)[0]`, src/main.go line 211): two
configurations whose delimiter strings share a first rune behave
identically; an empty delimiter makes that index expression a runtime panic
— not a reported conversion error — before anything is written, and with a
non-empty delimiter the panic branch is unreachable. -/
theorem xlsx2csv_delimiter_first_rune :
    (∀ (p : TRunParameters) (scr : ScannerScript), scr.openErr = none →
      p.Delimiter = "" →
      (xlsx2csv p scr).1 = PipeResult.panicked ∧
      (xlsx2csv p scr).2.wtrace.countP isRecEv = 0 ∧
      (xlsx2csv p scr).2.file = []) ∧
    (∀ (p : TRunParameters) (scr : ScannerScript) (c : Char) (r1 r2 : List Char),
      xlsx2csv { p with Delimiter := String.mk (c :: r1) } scr =
        xlsx2csv { p with Delimiter := String.mk (c :: r2) } scr) ∧
    (∀ (p : TRunParameters) (scr : ScannerScript), p.Delimiter ≠ "" →
      (xlsx2csv p scr).1 ≠ PipeResult.panicked) := by
  refine ⟨?_, ?_, ?_⟩
  · intro p scr hopen hempty
    unfold xlsx2csv
    rw [hopen, hempty]
    exact ⟨rfl, rfl, rfl⟩
  · intro p scr c r1 r2
    rfl
  · intro p scr hne
    unfold xlsx2csv
    cases hop : scr.openErr with
    | some e => simp
    | none =>
      dsimp only
      cases hd : p.Delimiter.data with
      | nil => exact absurd (show p.Delimiter = "" from congrArg String.mk hd) hne
      | cons c cr =>
        dsimp only
        by_cases hidx : 0 ≤ p.SheetIndex
        · rw [if_pos hidx]
          cases hse : scr.sheetErr p.SheetIndex with
          | some e => simp
          | none => exact xlsx2csvStream_not_panicked p scr c _
        · rw [if_neg hidx]
          exact xlsx2csvStream_not_panicked p scr c _

/-- Witness: the delimiter behaviour at concrete inputs — empty delimiter
panics, `";"` and `";x"` behave identically, and `";"` does not panic. -/
theorem xlsx2csv_delimiter_first_rune_witness :
    ((xlsx2csv { pBase with Delimiter := "" } scrOneRow).1 = PipeResult.panicked ∧
      (xlsx2csv { pBase with Delimiter := "" } scrOneRow).2.wtrace.countP isRecEv
        = 0 ∧
      (xlsx2csv { pBase with Delimiter := "" } scrOneRow).2.file = []) ∧
    xlsx2csv { pBase with Delimiter := String.mk (';' :: []) } scrOneRow =
      xlsx2csv { pBase with Delimiter := String.mk (';' :: ['x']) } scrOneRow ∧
    (xlsx2csv pBase scrOneRow).1 ≠ PipeResult.panicked := by
  refine ⟨?_, ?_, ?_⟩
  · exact xlsx2csv_delimiter_first_rune.1 { pBase with Delimiter := "" } scrOneRow
      rfl rfl
  · exact xlsx2csv_delimiter_first_rune.2.1 pBase scrOneRow ';' [] ['x']
  · exact xlsx2csv_delimiter_first_rune.2.2 pBase scrOneRow (by decide)

/-! ### The batch dispatcher (src/main.go lines 129–163)

`batchXlsx2csv` creates a task channel and a report channel, both buffered
to the job count, starts `BatchThreads` worker goroutines, submits every
discovered file name, receives exactly one report per job, closes the task
channel, sleeps 100 ms and returns.  Each worker loops: receive a task
(returning when the channel is closed and drained), convert it — reporting
a failure to stderr tagged with the source path without stopping — and send
one unit on the report channel.  This is embedded as a small-step
transition system over all interleavings; workers are symmetric, so the
worker pool is a count of idle workers, a multiset of in-flight jobs and a
count of exited workers. -/

/-- Dispatcher program counter, following the statement order of
src/main.go lines 155–163: submit all jobs, receive one report per job,
close the channel, sleep (no synchronisation with the workers), return. -/
inductive DPC
  | submitting
  | waiting
  | closing
  | finished
deriving DecidableEq, Repr

structure BatchSt where
  queue : List String
  closed : Bool
  submitted : Nat
  received : Nat
  reportsBuf : Nat
  dpc : DPC
  idle : Nat
  working : List String
  doneW : Nat
  attempted : List String
  outcomes : List (String × Bool)
deriving DecidableEq, Repr

/-- Initial state: empty channels, `nW` workers blocked on the task
channel, dispatcher about to submit. -/
def initBatch (nW : Nat) : BatchSt :=
  { queue := [], closed := false, submitted := 0, received := 0,
    reportsBuf := 0, dpc := .submitting, idle := nW, working := [],
    doneW := 0, attempted := [], outcomes := [] }

/-- One interleaved step of the dispatcher or of some worker.  `jobs` is
the discovered file list in dispatch order; `fails` tells which conversions
fail (a failing conversion is reported and the worker continues). -/
inductive BStep (jobs : List String) (fails : String → Bool) :
    BatchSt → BatchSt → Prop
  | submit (s : BatchSt) (h : s.dpc = .submitting)
      (hlt : s.submitted < jobs.length) :
      BStep jobs fails s
        { s with queue := s.queue ++ [jobs.getD s.submitted ""],
                 submitted := s.submitted + 1 }
  | subDone (s : BatchSt) (h : s.dpc = .submitting)
      (he : s.submitted = jobs.length) :
      BStep jobs fails s { s with dpc := .waiting }
  | recv (s : BatchSt) (h : s.dpc = .waiting)
      (hlt : s.received < jobs.length) (hb : 0 < s.reportsBuf) :
      BStep jobs fails s
        { s with received := s.received + 1, reportsBuf := s.reportsBuf - 1 }
  | recvDone (s : BatchSt) (h : s.dpc = .waiting)
      (he : s.received = jobs.length) :
      BStep jobs fails s { s with dpc := .closing }
  | close (s : BatchSt) (h : s.dpc = .closing) :
      BStep jobs fails s { s with closed := true, dpc := .finished }
  | take (s : BatchSt) (h : 0 < s.idle) (j : String) (rest : List String)
      (hq : s.queue = j :: rest) :
      BStep jobs fails s
        { s with idle := s.idle - 1, working := j :: s.working,
                 queue := rest, attempted := s.attempted ++ [j] }
  | exitW (s : BatchSt) (h : 0 < s.idle) (hq : s.queue = [])
      (hc : s.closed = true) :
      BStep jobs fails s { s with idle := s.idle - 1, doneW := s.doneW + 1 }
  | finish (s : BatchSt) (j : String) (l1 l2 : List String)
      (hw : s.working = l1 ++ j :: l2) :
      BStep jobs fails s
        { s with working := l1 ++ l2,
                 outcomes := s.outcomes ++ [(j, fails j)],
                 reportsBuf := s.reportsBuf + 1, idle := s.idle + 1 }

/-- Reachability from the initial state with `nW` workers. -/
def BReaches (jobs : List String) (fails : String → Bool) (nW : Nat)
    (s : BatchSt) : Prop :=
  Relation.ReflTransGen (BStep jobs fails) (initBatch nW) s

/-- The inductive invariant of the dispatcher: the submitted prefix splits
into the received-by-workers part and the queue; what workers received is,
as a multiset, the completed outcomes plus the in-flight jobs; outcomes are
counted by the report channel; and the dispatcher phases order submission,
reception, and closure. -/
def BInv (jobs : List String) (s : BatchSt) : Prop :=
  s.submitted ≤ jobs.length ∧
  jobs.take s.submitted = s.attempted ++ s.queue ∧
  List.Perm s.attempted (s.outcomes.map Prod.fst ++ s.working) ∧
  s.received + s.reportsBuf = s.outcomes.length ∧
  (s.dpc = .submitting → s.received = 0) ∧
  (s.dpc = .waiting → s.submitted = jobs.length) ∧
  (s.dpc = .closing → s.submitted = jobs.length ∧ s.received = jobs.length) ∧
  (s.dpc = .finished → s.submitted = jobs.length ∧ s.received = jobs.length) ∧
  (s.closed = true ↔ s.dpc = .finished) ∧
  s.received ≤ jobs.length

theorem take_succ_getD (l : List String) (n : Nat) (h : n < l.length) :
    l.take (n + 1) = l.take n ++ [l.getD n ""] := by
  rw [List.take_succ, List.getElem?_eq_getElem h, List.getD_eq_getElem l "" h]
  rfl

theorem BInv_init (jobs : List String) (nW : Nat) : BInv jobs (initBatch nW) := by
  refine ⟨by simp [initBatch], by simp [initBatch], by simp [initBatch],
    by simp [initBatch], fun _ => rfl, ?_, ?_, ?_, ?_, by simp [initBatch]⟩
  · intro h
    simp [initBatch] at h
  · intro h
    simp [initBatch] at h
  · intro h
    simp [initBatch] at h
  · constructor
    · intro h
      simp [initBatch] at h
    · intro h
      simp [initBatch] at h

theorem BInv_step (jobs : List String) (fails : String → Bool) {s s2 : BatchSt}
    (hstep : BStep jobs fails s s2) (hinv : BInv jobs s) : BInv jobs s2 := by
  obtain ⟨i1, i2, i3, i4, i5, i6, i7, i8, i9, i10⟩ := hinv
  cases hstep with
  | submit h hlt =>
    refine ⟨by dsimp only; omega, ?_, i3, i4, i5, ?_, ?_, ?_, ?_, i10⟩
    · show jobs.take (s.submitted + 1) =
        s.attempted ++ (s.queue ++ [jobs.getD s.submitted ""])
      rw [take_succ_getD jobs s.submitted hlt, i2, List.append_assoc]
    · intro hw
      simp only [h] at hw
      cases hw
    · intro hw
      simp only [h] at hw
      cases hw
    · intro hw
      simp only [h] at hw
      cases hw
    · show s.closed = true ↔ s.dpc = .finished
      exact i9
  | subDone h he =>
    refine ⟨i1, i2, i3, i4, ?_, fun _ => he, ?_, ?_, ?_, i10⟩
    · intro hw
      cases hw
    · intro hw
      cases hw
    · intro hw
      cases hw
    · rw [i9, h]
      constructor
      · intro hw
        cases hw
      · intro hw
        cases hw
  | recv h hlt hb =>
    refine ⟨i1, i2, i3, by dsimp only; omega, ?_, i6, ?_, ?_, i9,
      by dsimp only; omega⟩
    · intro hw
      simp only [h] at hw
      cases hw
    · intro hw
      simp only [h] at hw
      cases hw
    · intro hw
      simp only [h] at hw
      cases hw
  | recvDone h he =>
    refine ⟨i1, i2, i3, i4, ?_, ?_, fun _ => ⟨i6 h, he⟩, ?_, ?_, i10⟩
    · intro hw
      cases hw
    · intro hw
      cases hw
    · intro hw
      cases hw
    · rw [i9, h]
      constructor
      · intro hw
        cases hw
      · intro hw
        cases hw
  | close h =>
    refine ⟨i1, i2, i3, i4, ?_, ?_, ?_, fun _ => i7 h, ?_, i10⟩
    · intro hw
      cases hw
    · intro hw
      cases hw
    · intro hw
      cases hw
    · exact ⟨fun _ => rfl, fun _ => rfl⟩
  | take h j rest hq =>
    refine ⟨i1, ?_, ?_, i4, i5, i6, i7, i8, i9, i10⟩
    · show jobs.take s.submitted = s.attempted ++ [j] ++ rest
      rw [i2, hq, List.append_assoc]
      rfl
    · show List.Perm (s.attempted ++ [j]) (s.outcomes.map Prod.fst ++ (j :: s.working))
      refine List.Perm.trans (List.Perm.append i3 (List.Perm.refl [j])) ?_
      refine List.Perm.trans (List.Perm.of_eq (List.append_assoc _ _ _)) ?_
      exact List.Perm.append_left _ (List.perm_append_singleton j s.working)
  | exitW h hq hc =>
    exact ⟨i1, i2, i3, i4, i5, i6, i7, i8, i9, i10⟩
  | finish j l1 l2 hw =>
    refine ⟨i1, i2, ?_, ?_, i5, i6, i7, i8, i9, i10⟩
    · show List.Perm s.attempted
        ((s.outcomes ++ [(j, fails j)]).map Prod.fst ++ (l1 ++ l2))
      have h3 : List.Perm s.attempted
          (List.map Prod.fst s.outcomes ++ (j :: (l1 ++ l2))) := by
        rw [hw] at i3
        exact List.Perm.trans i3 (List.Perm.append_left _ List.perm_middle)
      have heq : (s.outcomes ++ [(j, fails j)]).map Prod.fst ++ (l1 ++ l2) =
          List.map Prod.fst s.outcomes ++ (j :: (l1 ++ l2)) := by
        simp
      rw [heq]
      exact h3
    · show s.received + (s.reportsBuf + 1) = (s.outcomes ++ [(j, fails j)]).length
      simp only [List.length_append, List.length_cons, List.length_nil]
      omega

theorem BInv_reach (jobs : List String) (fails : String → Bool) (nW : Nat)
    (s : BatchSt) (h : BReaches jobs fails nW s) : BInv jobs s := by
  induction h with
  | refl => exact BInv_init jobs nW
  | tail hsteps hstep ih => exact BInv_step jobs fails hstep ih

/-- A one-job batch with one worker and a conversion that succeeds. -/
def batchJobA : List String := ["a"]

def noFail : String → Bool := fun _ => false

/-- Reachable state of the one-job batch in which the dispatcher has
already consumed the job's outcome while the task channel is still open. -/
def bsRecvOpen : BatchSt :=
  { queue := [], closed := false, submitted := 1, received := 1,
    reportsBuf := 0, dpc := .waiting, idle := 1, working := [], doneW := 0,
    attempted := ["a"], outcomes := [("a", false)] }

/-- Reachable completed state of the one-job batch: channel closed, batch
returned, the single worker still blocked in its receive loop (it never
observed the closure; the 100 ms sleep gives no guarantee). -/
def bsFinished : BatchSt :=
  { bsRecvOpen with dpc := .finished, closed := true }

theorem reach_bsRecvOpen : BReaches batchJobA noFail 1 bsRecvOpen := by
  unfold BReaches
  refine Relation.ReflTransGen.head
    (BStep.submit (initBatch 1) rfl (by decide)) ?_
  refine Relation.ReflTransGen.head
    (BStep.subDone
      { queue := ["a"], closed := false, submitted := 1, received := 0,
        reportsBuf := 0, dpc := .submitting, idle := 1, working := [],
        doneW := 0, attempted := [], outcomes := [] } rfl rfl) ?_
  refine Relation.ReflTransGen.head
    (BStep.take
      { queue := ["a"], closed := false, submitted := 1, received := 0,
        reportsBuf := 0, dpc := .waiting, idle := 1, working := [],
        doneW := 0, attempted := [], outcomes := [] }
      (by decide) "a" [] rfl) ?_
  refine Relation.ReflTransGen.head
    (BStep.finish
      { queue := [], closed := false, submitted := 1, received := 0,
        reportsBuf := 0, dpc := .waiting, idle := 0, working := ["a"],
        doneW := 0, attempted := ["a"], outcomes := [] }
      "a" [] [] rfl) ?_
  refine Relation.ReflTransGen.head
    (BStep.recv
      { queue := [], closed := false, submitted := 1, received := 0,
        reportsBuf := 1, dpc := .waiting, idle := 1, working := [],
        doneW := 0, attempted := ["a"], outcomes := [("a", false)] }
      rfl (by decide) (by decide)) ?_
  exact Relation.ReflTransGen.refl

theorem reach_bsFinished : BReaches batchJobA noFail 1 bsFinished := by
  refine Relation.ReflTransGen.trans reach_bsRecvOpen ?_
  refine Relation.ReflTransGen.head (BStep.recvDone bsRecvOpen rfl rfl) ?_
  exact Relation.ReflTransGen.single
    (BStep.close { bsRecvOpen with dpc := .closing } rfl)

/-- C7: in batch mode, for every job list, failure pattern and worker count
`≥ 1`, in every reachable state where the batch has completed (the
dispatcher reached its return), every discovered file was taken by exactly
one worker (`attempted` is exactly the job list), each job produced exactly
one outcome report tagged with its source path (the outcomes are a
permutation of the job list — no duplicates, no omissions, failures
included), and exactly one report per job was received. -/
theorem batch_outcomes (jobs : List String) (fails : String → Bool) (nW : Nat)
    (_hW : 1 ≤ nW) (s : BatchSt) (hreach : BReaches jobs fails nW s)
    (hfin : s.dpc = DPC.finished) :
    s.attempted = jobs ∧
    List.Perm (s.outcomes.map Prod.fst) jobs ∧
    s.outcomes.length = jobs.length ∧
    s.received = jobs.length ∧
    s.queue = [] ∧ s.working = [] := by
  obtain ⟨i1, i2, i3, i4, i5, i6, i7, i8, i9, i10⟩ :=
    BInv_reach jobs fails nW s hreach
  obtain ⟨hsub, hrecv⟩ := i8 hfin
  have hlen2 : s.attempted.length + s.queue.length = jobs.length := by
    have hc := congrArg List.length i2
    rw [hsub] at hc
    simpa [List.length_take, List.length_append] using hc.symm
  have hlen3 : s.attempted.length = s.outcomes.length + s.working.length := by
    have hc := i3.length_eq
    simpa using hc
  have hout : jobs.length ≤ s.outcomes.length := by omega
  have hq0 : s.queue.length = 0 := by omega
  have hw0 : s.working.length = 0 := by omega
  have houtlen : s.outcomes.length = jobs.length := by omega
  have hqe : s.queue = [] := List.length_eq_zero.mp hq0
  have hwe : s.working = [] := List.length_eq_zero.mp hw0
  have hatt : s.attempted = jobs := by
    have h2 := i2
    rw [hsub, List.take_length, hqe, List.append_nil] at h2
    exact h2.symm
  refine ⟨hatt, ?_, houtlen, hrecv, hqe, hwe⟩
  have h3 := i3
  rw [hwe, List.append_nil, hatt] at h3
  exact h3.symm

/-- Witness: the completed one-job batch with one worker attempted the
single file exactly once and produced exactly its outcome. -/
theorem batch_outcomes_witness :
    bsFinished.attempted = batchJobA ∧
    List.Perm (bsFinished.outcomes.map Prod.fst) batchJobA ∧
    bsFinished.outcomes.length = batchJobA.length ∧
    bsFinished.received = batchJobA.length ∧
    bsFinished.queue = [] ∧ bsFinished.working = [] :=
  batch_outcomes batchJobA noFail 1 (by decide) bsFinished reach_bsFinished rfl

/-- C8 counterexample: the claim says the dispatcher closes the job queue
after submitting all jobs and then blocks for the outcomes, and that no
worker is left running past batch completion.  In the code the receive loop
precedes `close(tasks)` (src/main.go lines 158–161) and shutdown is a timed
sleep: the one-job batch reaches a state with an outcome received while the
queue is still open, and reaches a completed state whose single worker is
still in its receive loop, never having acknowledged termination. -/
theorem batch_close_order_counterexample :
    (BReaches batchJobA noFail 1 bsRecvOpen ∧
      bsRecvOpen.received = 1 ∧ bsRecvOpen.closed = false) ∧
    (BReaches batchJobA noFail 1 bsFinished ∧
      bsFinished.dpc = DPC.finished ∧ bsFinished.idle = 1 ∧
      bsFinished.doneW = 0) :=
  ⟨⟨reach_bsRecvOpen, rfl, rfl⟩, ⟨reach_bsFinished, rfl, rfl, rfl⟩⟩

/-- C8 amended: the dispatcher submits all jobs, blocks until it has
received exactly one outcome per job, and only then closes the queue — in
every reachable state a closed queue means all outcomes were already
received, and a completed batch has received exactly one outcome per job —
but worker shutdown is a timed sleep, not synchronisation: a completed
batch may still have a running worker. -/
theorem batch_close_after_outcomes :
    (∀ (jobs : List String) (fails : String → Bool) (nW : Nat) (s : BatchSt),
      BReaches jobs fails nW s → s.closed = true →
        s.received = jobs.length) ∧
    (∀ (jobs : List String) (fails : String → Bool) (nW : Nat) (s : BatchSt),
      BReaches jobs fails nW s → s.dpc = DPC.finished →
        s.closed = true ∧ s.received = jobs.length) ∧
    (BReaches batchJobA noFail 1 bsFinished ∧
      bsFinished.dpc = DPC.finished ∧ 0 < bsFinished.idle) := by
  refine ⟨?_, ?_, reach_bsFinished, rfl, by decide⟩
  · intro jobs fails nW s hreach hclosed
    obtain ⟨_, _, _, _, _, _, _, i8, i9, _⟩ := BInv_reach jobs fails nW s hreach
    exact (i8 (i9.mp hclosed)).2
  · intro jobs fails nW s hreach hfin
    obtain ⟨_, _, _, _, _, _, _, i8, i9, _⟩ := BInv_reach jobs fails nW s hreach
    exact ⟨i9.mpr hfin, (i8 hfin).2⟩

/-- Witness: the closure/outcome ordering at the completed one-job batch. -/
theorem batch_close_after_outcomes_witness :
    bsFinished.received = batchJobA.length ∧
    (bsFinished.closed = true ∧ bsFinished.received = batchJobA.length) :=
  ⟨batch_close_after_outcomes.1 batchJobA noFail 1 bsFinished reach_bsFinished
      rfl,
    batch_close_after_outcomes.2.1 batchJobA noFail 1 bsFinished
      reach_bsFinished rfl⟩

end XC
